import Mathlib

/-!
Formal model of the dithering / palette engine of the Dither-Generator
repository (the `Dithering` and `ColorPalettes` classes of `src/test.js`).

Modelling conventions:

* JavaScript numbers are modelled by `ℚ`.  Every arithmetic operation the
  engine performs on the values that actually reach it (integers in `[0, 255]`
  and dyadic rationals with denominator dividing `128`) is exactly
  representable in IEEE-754 binary64, with one exception: the luminance
  computation `0.299 * r + 0.587 * g + 0.114 * b` of
  `findClosestMonochromeColor`, whose constants are not dyadic.  That one
  computation is therefore modelled with exact binary64 semantics
  (`roundDouble` below rounds a rational to the nearest binary64 value,
  ties to even), so that the model is bit-for-bit faithful to the
  JavaScript engine on every input the transforms produce.
* A `Uint8ClampedArray` store is `toUint8Clamp` (ECMAScript `ToUint8Clamp`:
  clamp to `[0, 255]`, round to nearest, ties to even); buffers are
  `List ℕ` whose entries are the stored bytes.
* A thrown JavaScript error is `Option.none`: the transforms return
  `Option ImageData`, and `none` models the `throw` (the `catch` blocks in
  the source only rethrow).
* In-bounds reads `data[i]` are `List.getD i 0`; every theorem below that
  depends on reads carries the length hypothesis making all reads in-bounds,
  exactly as `ImageData` guarantees in the browser.
-/

/-- Round a rational to the nearest integer, ties to even: the rounding mode
used both by ECMAScript `ToUint8Clamp` and by IEEE-754 binary64 arithmetic. -/
def roundHalfEven (q : ℚ) : ℤ :=
  let f := ⌊q⌋
  if q - f < 1/2 then f
  else if 1/2 < q - f then f + 1
  else if 2 ∣ f then f else f + 1

/-- ECMAScript `ToUint8Clamp`: the conversion applied by every store into a
`Uint8ClampedArray` — clamp to `[0, 255]`, round to the nearest integer,
ties to even. -/
def toUint8Clamp (q : ℚ) : ℕ :=
  if q ≤ 0 then 0
  else if 255 ≤ q then 255
  else (roundHalfEven q).toNat

/-- Fuel-driven base-2 logarithm on `ℕ`: for `1 ≤ n < 2 ^ fuel`,
`natLog2 fuel n = ⌊log₂ n⌋`. -/
def natLog2 : ℕ → ℕ → ℕ
  | 0, _ => 0
  | fuel + 1, n => if n < 2 then 0 else natLog2 fuel (n / 2) + 1

/-- Floor of the base-2 logarithm of a positive rational.  The first guess
from the bit lengths of numerator and denominator is off by at most one and
is corrected by direct comparison. -/
def ratFloorLog2 (q : ℚ) : ℤ :=
  let g : ℤ := (natLog2 q.num.toNat q.num.toNat : ℤ) - (natLog2 q.den q.den : ℤ)
  if (2 : ℚ) ^ (g + 1) ≤ q then g + 1
  else if (2 : ℚ) ^ g ≤ q then g
  else g - 1

/-- Round a rational to the nearest IEEE-754 binary64 value (round to
nearest, ties to even), assuming the result lies in the normal range — which
every value of the luminance computation does.  This is the exact semantics
of a JavaScript floating-point operation result. -/
def roundDouble (q : ℚ) : ℚ :=
  if q = 0 then 0
  else if q < 0 then
    -((roundHalfEven (-q * (2 : ℚ) ^ (52 - ratFloorLog2 (-q))) : ℚ) *
      (2 : ℚ) ^ (ratFloorLog2 (-q) - 52))
  else
    (roundHalfEven (q * (2 : ℚ) ^ (52 - ratFloorLog2 q)) : ℚ) *
      (2 : ℚ) ^ (ratFloorLog2 q - 52)

/-- Value of the JavaScript literal `0.299`: the binary64 value nearest to
299/1000. -/
def double0299 : ℚ := roundDouble (299/1000)

/-- Value of the JavaScript literal `0.587`. -/
def double0587 : ℚ := roundDouble (587/1000)

/-- Value of the JavaScript literal `0.114`. -/
def double0114 : ℚ := roundDouble (114/1000)

/-- The luminance expression `0.299 * r + 0.587 * g + 0.114 * b` of
`findClosestMonochromeColor`, evaluated exactly as JavaScript evaluates it:
binary64 constants, and each product and sum rounded to binary64. -/
def jsLuminance (r g b : ℚ) : ℚ :=
  roundDouble (roundDouble (roundDouble (double0299 * r) + roundDouble (double0587 * g)) +
    roundDouble (double0114 * b))

/-- A color, as the engine passes it around: a list of channel values
(a well-formed color has at least the three channels R, G, B). -/
abbrev Color := List ℚ

/-- ColorPalettes.monochrome: the 2-entry display palette.  The `threshold`
parameter of the source is unused there as well. -/
def ColorPalettes.monochrome (_threshold : ℚ := 128) : List Color :=
  [[0, 0, 0],
   [255, 255, 255]]

/-- ColorPalettes.cga: the fixed 4-color CGA palette. -/
def ColorPalettes.cga : List Color :=
  [[0, 0, 0],
   [85, 255, 255],
   [255, 85, 255],
   [255, 255, 255]]

/-- ColorPalettes.webSafe: the 216-color web-safe palette, 6×6×6 grid,
generated r-outer, g-middle, b-inner, channel value `round(index * 51)`
(exact, since `index * 51` is an integer). -/
def ColorPalettes.webSafe : List Color :=
  (List.range 6).flatMap fun r =>
    (List.range 6).flatMap fun g =>
      (List.range 6).map fun b =>
        [((r * 51 : ℕ) : ℚ), ((g * 51 : ℕ) : ℚ), ((b * 51 : ℕ) : ℚ)]

/-- ColorPalettes.findClosestColor: scan the palette keeping the entry with
the strictly smallest squared Euclidean RGB distance.  `minDistance` starts
at `Infinity`, modelled by `Option ℚ` with `none` for `Infinity`;
`closestColor` starts at `palette[0]`.  Entries with fewer than 3 channels
are skipped (the source's `!color || color.length < 3` guard; a `null`
entry is likewise just skipped).  An empty palette yields the black
fallback. -/
def ColorPalettes.findClosestColor (r g b : ℚ) (palette : List Color) : Color :=
  if palette.isEmpty then [0, 0, 0]
  else
    (palette.foldl
      (fun acc color =>
        if color.length < 3 then acc
        else
          let dr := r - color.getD 0 0
          let dg := g - color.getD 1 0
          let db := b - color.getD 2 0
          let distance := dr * dr + dg * dg + db * db
          match acc.1 with
          | none => (some distance, color)
          | some minDistance =>
            if distance < minDistance then (some distance, color) else acc)
      (none, palette.headD [])).2

/-- ColorPalettes.findClosestMonochromeColor: threshold the binary64
luminance.  The source substitutes `128` when `isNaN(threshold)`; a `NaN`
(or otherwise invalid) threshold is modelled by `Option.none`. -/
def ColorPalettes.findClosestMonochromeColor (r g b : ℚ) (threshold : Option ℚ) : Color :=
  let validThreshold : ℚ := match threshold with | none => 128 | some t => t
  let gray := jsLuminance r g b
  if gray < validThreshold then [0, 0, 0] else [255, 255, 255]

/-- The pixel-buffer data model: `width`, `height`, and the row-major RGBA
bytes (`data[(y * width + x) * 4 + c]`, channels R, G, B, A). -/
structure ImageData where
  width : ℕ
  height : ℕ
  data : List ℕ
deriving DecidableEq, Repr

/-- A color-resolution function `resolve(r, g, b) -> Color`, as the test
harness builds one from a palette (or from the monochrome threshold). -/
abbrev Resolver := ℚ → ℚ → ℚ → Color

/-- The monochrome resolver the harness builds:
`(r, g, b) => ColorPalettes.findClosestMonochromeColor(r, g, b, threshold)`. -/
def monochromeResolver (threshold : Option ℚ) : Resolver := fun r g b =>
  ColorPalettes.findClosestMonochromeColor r g b threshold

/-- The palette resolver the harness builds:
`(r, g, b) => ColorPalettes.findClosestColor(r, g, b, palette)`. -/
def paletteResolver (palette : List Color) : Resolver := fun r g b =>
  ColorPalettes.findClosestColor r g b palette

/-- One error-deposit of Floyd–Steinberg:
`data[i] += error * weight`, stored through `Uint8ClampedArray` — i.e.
rounded to the nearest integer and clamped to `[0, 255]` as it is stored. -/
def addErr (data : List ℕ) (i : ℕ) (error weight : ℚ) : List ℕ :=
  data.set i (toUint8Clamp ((data.getD i 0 : ℚ) + error * weight))

/-- The three channel deposits at one neighbor, in source order (R, G, B). -/
def addErr3 (data : List ℕ) (i : ℕ) (errorR errorG errorB weight : ℚ) : List ℕ :=
  addErr (addErr (addErr data i errorR weight) (i + 1) errorG weight) (i + 2) errorB weight

/-- The body of the Floyd–Steinberg double loop at pixel `(x, y)`, acting on
the state (working buffer `data`, output buffer `output`).  Returns `none`
when the resolver's answer fails the `!closestColor || closestColor.length < 3`
check (the thrown `Invalid color returned from palette`). -/
def Dithering.fsPixel (width height : ℕ) (findClosestColor : Resolver) (y x : ℕ)
    (st : List ℕ × List ℕ) : Option (List ℕ × List ℕ) :=
  let data := st.1
  let output := st.2
  let idx := (y * width + x) * 4
  let r : ℚ := (data.getD idx 0 : ℚ)
  let g : ℚ := (data.getD (idx + 1) 0 : ℚ)
  let b : ℚ := (data.getD (idx + 2) 0 : ℚ)
  let closestColor := findClosestColor r g b
  if closestColor.length < 3 then none
  else
    let output := output.set idx (toUint8Clamp (closestColor.getD 0 0))
    let output := output.set (idx + 1) (toUint8Clamp (closestColor.getD 1 0))
    let output := output.set (idx + 2) (toUint8Clamp (closestColor.getD 2 0))
    let output := output.set (idx + 3) (data.getD (idx + 3) 0)
    let errorR := r - closestColor.getD 0 0
    let errorG := g - closestColor.getD 1 0
    let errorB := b - closestColor.getD 2 0
    let data := if x + 1 < width then
      addErr3 data ((y * width + (x + 1)) * 4) errorR errorG errorB (7/16) else data
    let data := if 1 ≤ x ∧ y + 1 < height then
      addErr3 data (((y + 1) * width + (x - 1)) * 4) errorR errorG errorB (3/16) else data
    let data := if y + 1 < height then
      addErr3 data (((y + 1) * width + x) * 4) errorR errorG errorB (5/16) else data
    let data := if x + 1 < width ∧ y + 1 < height then
      addErr3 data (((y + 1) * width + (x + 1)) * 4) errorR errorG errorB (1/16) else data
    some (data, output)

/-- Dithering.floydSteinberg: seed the working buffer and the output buffer
as copies of the source bytes, then run the double loop (`y` outer
ascending, `x` inner ascending), threading the state through `Option`. -/
def Dithering.floydSteinberg (imageData : ImageData) (findClosestColor : Resolver) :
    Option ImageData :=
  let width := imageData.width
  let height := imageData.height
  let data := imageData.data
  let output := data
  match (List.range height).foldlM
      (fun st y => (List.range width).foldlM
        (fun st x => Dithering.fsPixel width height findClosestColor y x st) st)
      (data, output) with
  | none => none
  | some st => some ⟨width, height, st.2⟩

/-- The 8×8 Bayer matrix of `Dithering.bayer`. -/
def Dithering.bayerMatrix : List (List ℕ) :=
  [[0, 48, 12, 60, 3, 51, 15, 63],
   [32, 16, 44, 28, 35, 19, 47, 31],
   [8, 56, 4, 52, 11, 59, 7, 55],
   [40, 24, 36, 20, 43, 27, 39, 23],
   [2, 50, 14, 62, 1, 49, 13, 61],
   [34, 18, 46, 30, 33, 17, 45, 29],
   [10, 58, 6, 54, 9, 57, 5, 53],
   [42, 26, 38, 22, 41, 25, 37, 21]]

/-- The 4×4 matrix of `Dithering.ordered`. -/
def Dithering.orderedMatrix : List (List ℕ) :=
  [[0, 8, 2, 10],
   [12, 4, 14, 6],
   [3, 11, 1, 9],
   [15, 7, 13, 5]]

/-- The body of the ordered-dithering double loop at `(x, y)`: offset each
channel by the normalized threshold, clamp, resolve, and write the resolved
color (and the source alpha) to the output. -/
def Dithering.ordPixel (width : ℕ) (data : List ℕ) (normalizedMatrix : List (List ℚ))
    (n : ℕ) (findClosestColor : Resolver) (y x : ℕ) (output : List ℕ) :
    Option (List ℕ) :=
  let idx := (y * width + x) * 4
  let r : ℚ := (data.getD idx 0 : ℚ)
  let g : ℚ := (data.getD (idx + 1) 0 : ℚ)
  let b : ℚ := (data.getD (idx + 2) 0 : ℚ)
  let threshold := ((normalizedMatrix.getD (y % n) []).getD (x % n) 0) * 255
  let adjustedR := min 255 (max 0 (r + threshold))
  let adjustedG := min 255 (max 0 (g + threshold))
  let adjustedB := min 255 (max 0 (b + threshold))
  let closestColor := findClosestColor adjustedR adjustedG adjustedB
  if closestColor.length < 3 then none
  else
    let output := output.set idx (toUint8Clamp (closestColor.getD 0 0))
    let output := output.set (idx + 1) (toUint8Clamp (closestColor.getD 1 0))
    let output := output.set (idx + 2) (toUint8Clamp (closestColor.getD 2 0))
    let output := output.set (idx + 3) (data.getD (idx + 3) 0)
    some output

/-- The shared shape of `Dithering.bayer` and `Dithering.ordered` (the two
source functions are identical except for the matrix and its size `n`,
with divisor `n * n`): normalize the matrix once, allocate a zeroed output
of the source's length, run the double loop. -/
def Dithering.orderedCore (matrix : List (List ℕ)) (n : ℕ) (imageData : ImageData)
    (findClosestColor : Resolver) : Option ImageData :=
  let width := imageData.width
  let height := imageData.height
  let data := imageData.data
  let normalizedMatrix : List (List ℚ) :=
    matrix.map fun row => row.map fun (val : ℕ) => ((val : ℚ) + 1/2) / ((n : ℚ) * n) - 1/2
  match (List.range height).foldlM
      (fun out y => (List.range width).foldlM
        (fun out x => Dithering.ordPixel width data normalizedMatrix n findClosestColor y x out) out)
      (List.replicate data.length 0) with
  | none => none
  | some out => some ⟨width, height, out⟩

/-- Dithering.bayer: ordered dithering with the 8×8 Bayer matrix,
normalization `(val + 0.5) / 64 - 0.5`. -/
def Dithering.bayer (imageData : ImageData) (findClosestColor : Resolver) :
    Option ImageData :=
  Dithering.orderedCore Dithering.bayerMatrix 8 imageData findClosestColor

/-- Dithering.ordered: ordered dithering with the 4×4 matrix,
normalization `(val + 0.5) / 16 - 0.5`. -/
def Dithering.ordered (imageData : ImageData) (findClosestColor : Resolver) :
    Option ImageData :=
  Dithering.orderedCore Dithering.orderedMatrix 4 imageData findClosestColor

/-! ### Evaluation lemmas for the rounding primitives -/

theorem roundHalfEven_eq_down {q : ℚ} {f : ℤ} (h1 : (f : ℚ) ≤ q) (h2 : q < (f : ℚ) + 1/2) :
    roundHalfEven q = f := by
  have hf : ⌊q⌋ = f := Int.floor_eq_iff.mpr ⟨h1, by linarith⟩
  simp only [roundHalfEven, hf]
  rw [if_pos (by linarith)]

theorem roundHalfEven_eq_up {q : ℚ} {f : ℤ} (h1 : (f : ℚ) + 1/2 < q) (h2 : q < (f : ℚ) + 1) :
    roundHalfEven q = f + 1 := by
  have hf : ⌊q⌋ = f := Int.floor_eq_iff.mpr ⟨by linarith, by linarith⟩
  simp only [roundHalfEven, hf]
  rw [if_neg (by linarith), if_pos (by linarith)]

theorem roundHalfEven_eq_tie_odd {q : ℚ} {f : ℤ} (h : q = (f : ℚ) + 1/2) (hodd : ¬ (2 ∣ f)) :
    roundHalfEven q = f + 1 := by
  have hf : ⌊q⌋ = f := Int.floor_eq_iff.mpr ⟨by linarith, by linarith⟩
  simp only [roundHalfEven, hf]
  rw [if_neg (by rw [h]; norm_num), if_neg (by rw [h]; norm_num), if_neg hodd]

theorem roundHalfEven_eq_tie_even {q : ℚ} {f : ℤ} (h : q = (f : ℚ) + 1/2) (heven : 2 ∣ f) :
    roundHalfEven q = f := by
  have hf : ⌊q⌋ = f := Int.floor_eq_iff.mpr ⟨by linarith, by linarith⟩
  simp only [roundHalfEven, hf]
  rw [if_neg (by rw [h]; norm_num), if_neg (by rw [h]; norm_num), if_pos heven]

theorem roundHalfEven_intCast (f : ℤ) : roundHalfEven (f : ℚ) = f :=
  roundHalfEven_eq_down le_rfl (by norm_num)

theorem roundHalfEven_le {q : ℚ} : roundHalfEven q ≤ ⌊q⌋ + 1 := by
  simp only [roundHalfEven]
  split
  · omega
  · split
    · omega
    · split <;> omega

theorem toUint8Clamp_of_nonpos {q : ℚ} (h : q ≤ 0) : toUint8Clamp q = 0 := by
  rw [toUint8Clamp, if_pos h]

theorem toUint8Clamp_of_ge {q : ℚ} (h : 255 ≤ q) : toUint8Clamp q = 255 := by
  rw [toUint8Clamp, if_neg (by linarith), if_pos h]

theorem toUint8Clamp_mid {q : ℚ} {m : ℕ} (h0 : ¬ q ≤ 0) (h255 : ¬ 255 ≤ q)
    (hr : roundHalfEven q = (m : ℤ)) : toUint8Clamp q = m := by
  rw [toUint8Clamp, if_neg h0, if_neg h255, hr, Int.toNat_natCast]

theorem toUint8Clamp_le (q : ℚ) : toUint8Clamp q ≤ 255 := by
  rw [toUint8Clamp]
  split
  · omega
  · split
    · omega
    · rename_i h0 h255
      have hfl : ⌊q⌋ + 1 ≤ 255 := by
        have : ⌊q⌋ < 255 := Int.floor_lt.mpr (by push_cast; linarith)
        omega
      have := roundHalfEven_le (q := q)
      omega

theorem toUint8Clamp_natCast {n : ℕ} (h : n ≤ 255) : toUint8Clamp (n : ℚ) = n := by
  rcases Nat.eq_zero_or_pos n with h0 | h0
  · subst h0; exact toUint8Clamp_of_nonpos (by norm_num)
  rcases eq_or_lt_of_le h with h255 | h255
  · subst h255; exact toUint8Clamp_of_ge (by norm_num)
  refine toUint8Clamp_mid ?_ ?_ ?_
  · push_neg
    exact_mod_cast h0
  · push_neg
    exact_mod_cast h255
  · have : ((n : ℤ) : ℚ) = (n : ℚ) := by push_cast; ring
    rw [← this, roundHalfEven_intCast]

/-! ### Correctness of the base-2 logarithm and of `roundDouble` evaluation -/

theorem natLog2_spec : ∀ fuel n : ℕ, 1 ≤ n → n < 2 ^ fuel →
    2 ^ natLog2 fuel n ≤ n ∧ n < 2 ^ (natLog2 fuel n + 1) := by
  intro fuel
  induction fuel with
  | zero => intro n h1 h2; simp at h2; omega
  | succ f ih =>
    intro n h1 h2
    simp only [natLog2]
    by_cases hn : n < 2
    · rw [if_pos hn]
      constructor
      · simpa using h1
      · simpa using hn
    · rw [if_neg hn]
      have h1' : 1 ≤ n / 2 := by omega
      have h2' : n / 2 < 2 ^ f := by
        rw [pow_succ] at h2
        omega
      obtain ⟨hL, hU⟩ := ih (n / 2) h1' h2'
      rw [pow_succ] at hU ⊢
      rw [pow_succ]
      constructor
      · omega
      · omega

theorem ratFloorLog2_eq {q : ℚ} {e : ℤ} (h1 : (2 : ℚ) ^ e ≤ q) (h2 : q < (2 : ℚ) ^ (e + 1)) :
    ratFloorLog2 q = e := by
  have hq : 0 < q := lt_of_lt_of_le (zpow_pos (by norm_num) e) h1
  have hnum : 0 < q.num := Rat.num_pos.mpr hq
  have hN1 : 1 ≤ q.num.toNat := by omega
  have hD1 : 1 ≤ q.den := q.den_pos
  simp only [ratFloorLog2]
  obtain ⟨haL, haU⟩ := natLog2_spec q.num.toNat q.num.toNat hN1 (Nat.lt_two_pow _)
  obtain ⟨hbL, hbU⟩ := natLog2_spec q.den q.den hD1 (Nat.lt_two_pow _)
  set a := natLog2 q.num.toNat q.num.toNat with ha
  set b := natLog2 q.den q.den with hb
  have hq_eq : q = (q.num.toNat : ℚ) / (q.den : ℚ) := by
    have : ((q.num.toNat : ℤ) : ℚ) = (q.num : ℚ) := by rw [Int.toNat_of_nonneg hnum.le]
    rw [show ((q.num.toNat : ℕ) : ℚ) = ((q.num.toNat : ℤ) : ℚ) by push_cast; ring, this]
    exact (Rat.num_div_den q).symm
  have hden_pos : (0 : ℚ) < (q.den : ℚ) := by exact_mod_cast hD1
  have hNpos : (0 : ℚ) < ((q.num.toNat : ℕ) : ℚ) := by
    have h0 : 0 < q.num.toNat := hN1
    exact_mod_cast h0
  have two_ne : (2 : ℚ) ≠ 0 := by norm_num
  have zpow_cast : ∀ m : ℕ, (2 : ℚ) ^ ((m : ℤ)) = (2 : ℚ) ^ m := fun m => zpow_natCast 2 m
  have zpow_succ_cast : ∀ m : ℕ, (2 : ℚ) ^ ((m : ℤ) + 1) = (2 : ℚ) ^ m * 2 := by
    intro m
    rw [← zpow_natCast (2 : ℚ) m, ← zpow_add_one₀ two_ne]
  have haU' : ((q.num.toNat : ℕ) : ℚ) < (2 : ℚ) ^ ((a : ℤ) + 1) := by
    have h' := haU
    rw [pow_succ] at h'
    rw [zpow_succ_cast]
    exact_mod_cast h'
  have haL' : (2 : ℚ) ^ ((a : ℤ)) ≤ ((q.num.toNat : ℕ) : ℚ) := by
    rw [zpow_cast]
    exact_mod_cast haL
  have hbU' : ((q.den : ℕ) : ℚ) < (2 : ℚ) ^ ((b : ℤ) + 1) := by
    have h' := hbU
    rw [pow_succ] at h'
    rw [zpow_succ_cast]
    exact_mod_cast h'
  have hbL' : (2 : ℚ) ^ ((b : ℤ)) ≤ ((q.den : ℕ) : ℚ) := by
    rw [zpow_cast]
    exact_mod_cast hbL
  have hqu : q < (2 : ℚ) ^ ((a : ℤ) - (b : ℤ) + 1) := by
    have hstep1 : q ≤ ((q.num.toNat : ℕ) : ℚ) / (2 : ℚ) ^ ((b : ℤ)) := by
      calc q = ((q.num.toNat : ℕ) : ℚ) / (q.den : ℚ) := hq_eq
        _ ≤ _ := div_le_div_of_nonneg_left hNpos.le (zpow_pos (by norm_num) _) hbL'
    have hstep2 : ((q.num.toNat : ℕ) : ℚ) / (2 : ℚ) ^ ((b : ℤ)) <
        (2 : ℚ) ^ ((a : ℤ) + 1) / (2 : ℚ) ^ ((b : ℤ)) :=
      (div_lt_div_iff_of_pos_right (zpow_pos (by norm_num) _)).mpr haU'
    have heq : (2 : ℚ) ^ ((a : ℤ) + 1) / (2 : ℚ) ^ ((b : ℤ)) =
        (2 : ℚ) ^ ((a : ℤ) - (b : ℤ) + 1) := by
      rw [← zpow_sub₀ two_ne]
      congr 1
      ring
    calc q ≤ _ := hstep1
      _ < _ := hstep2
      _ = _ := heq
  have hql : (2 : ℚ) ^ ((a : ℤ) - (b : ℤ) - 1) < q := by
    have heq : (2 : ℚ) ^ ((a : ℤ) - (b : ℤ) - 1) =
        (2 : ℚ) ^ ((a : ℤ)) / (2 : ℚ) ^ ((b : ℤ) + 1) := by
      rw [← zpow_sub₀ two_ne]
      congr 1
      ring
    have hstep1 : (2 : ℚ) ^ ((a : ℤ)) / (2 : ℚ) ^ ((b : ℤ) + 1) ≤
        ((q.num.toNat : ℕ) : ℚ) / (2 : ℚ) ^ ((b : ℤ) + 1) :=
      (div_le_div_iff_of_pos_right (zpow_pos (by norm_num) _)).mpr haL'
    have hstep2 : ((q.num.toNat : ℕ) : ℚ) / (2 : ℚ) ^ ((b : ℤ) + 1) < q := by
      calc ((q.num.toNat : ℕ) : ℚ) / (2 : ℚ) ^ ((b : ℤ) + 1)
          < ((q.num.toNat : ℕ) : ℚ) / (q.den : ℚ) :=
            div_lt_div_of_pos_left hNpos hden_pos hbU'
        _ = q := hq_eq.symm
    calc (2 : ℚ) ^ ((a : ℤ) - (b : ℤ) - 1) = _ := heq
      _ ≤ _ := hstep1
      _ < _ := hstep2
  have key_le : ∀ i j : ℤ, (2 : ℚ) ^ i ≤ q → q < (2 : ℚ) ^ (j + 1) → i ≤ j := by
    intro i j hi hj
    have h' := lt_of_le_of_lt hi hj
    rw [zpow_lt_zpow_iff_right₀ (by norm_num : (1 : ℚ) < 2)] at h'
    omega
  have key_lt : ∀ i j : ℤ, (2 : ℚ) ^ i < q → q < (2 : ℚ) ^ (j + 1) → i ≤ j := by
    intro i j hi hj
    have h' := lt_trans hi hj
    rw [zpow_lt_zpow_iff_right₀ (by norm_num : (1 : ℚ) < 2)] at h'
    omega
  by_cases hc1 : (2 : ℚ) ^ ((a : ℤ) - (b : ℤ) + 1) ≤ q
  · exact absurd hqu (not_lt.mpr hc1)
  rw [if_neg hc1]
  by_cases hc2 : (2 : ℚ) ^ ((a : ℤ) - (b : ℤ)) ≤ q
  · rw [if_pos hc2]
    have hu : e ≤ (a : ℤ) - (b : ℤ) := key_le e _ h1 hqu
    have hl : (a : ℤ) - (b : ℤ) ≤ e := key_le _ e hc2 h2
    omega
  · rw [if_neg hc2]
    push_neg at hc2
    have hu : e ≤ (a : ℤ) - (b : ℤ) - 1 := by
      have h' := lt_of_le_of_lt h1 hc2
      rw [zpow_lt_zpow_iff_right₀ (by norm_num : (1 : ℚ) < 2)] at h'
      omega
    have hl : (a : ℤ) - (b : ℤ) - 1 ≤ e := key_lt _ e hql h2
    omega

theorem roundDouble_eq_of {q : ℚ} {e : ℤ} (h1 : (2 : ℚ) ^ e ≤ q) (h2 : q < (2 : ℚ) ^ (e + 1)) :
    roundDouble q = (roundHalfEven (q * (2 : ℚ) ^ (52 - e)) : ℚ) * (2 : ℚ) ^ (e - 52) := by
  have hq : 0 < q := lt_of_lt_of_le (zpow_pos (by norm_num) e) h1
  rw [roundDouble, if_neg hq.ne', if_neg (not_lt.mpr hq.le), ratFloorLog2_eq h1 h2]

theorem roundDouble_eval_down {q out : ℚ} (e f : ℤ)
    (h1 : (2 : ℚ) ^ e ≤ q) (h2 : q < (2 : ℚ) ^ (e + 1))
    (h3 : (f : ℚ) ≤ q * (2 : ℚ) ^ (52 - e)) (h4 : q * (2 : ℚ) ^ (52 - e) < (f : ℚ) + 1/2)
    (h5 : (f : ℚ) * (2 : ℚ) ^ (e - 52) = out) : roundDouble q = out := by
  rw [roundDouble_eq_of h1 h2, roundHalfEven_eq_down h3 h4, h5]

theorem roundDouble_eval_up {q out : ℚ} (e f : ℤ)
    (h1 : (2 : ℚ) ^ e ≤ q) (h2 : q < (2 : ℚ) ^ (e + 1))
    (h3 : (f : ℚ) + 1/2 < q * (2 : ℚ) ^ (52 - e)) (h4 : q * (2 : ℚ) ^ (52 - e) < (f : ℚ) + 1)
    (h5 : ((f : ℚ) + 1) * (2 : ℚ) ^ (e - 52) = out) : roundDouble q = out := by
  rw [roundDouble_eq_of h1 h2, roundHalfEven_eq_up h3 h4]
  have hc : ((f + 1 : ℤ) : ℚ) = (f : ℚ) + 1 := by push_cast; ring
  rw [hc, h5]

theorem roundDouble_eval_tie_odd {q out : ℚ} (e f : ℤ)
    (h1 : (2 : ℚ) ^ e ≤ q) (h2 : q < (2 : ℚ) ^ (e + 1))
    (h3 : q * (2 : ℚ) ^ (52 - e) = (f : ℚ) + 1/2) (hodd : ¬ (2 ∣ f))
    (h5 : ((f : ℚ) + 1) * (2 : ℚ) ^ (e - 52) = out) : roundDouble q = out := by
  rw [roundDouble_eq_of h1 h2, roundHalfEven_eq_tie_odd h3 hodd]
  have hc : ((f + 1 : ℤ) : ℚ) = (f : ℚ) + 1 := by push_cast; ring
  rw [hc, h5]

theorem roundDouble_eval_tie_even {q out : ℚ} (e f : ℤ)
    (h1 : (2 : ℚ) ^ e ≤ q) (h2 : q < (2 : ℚ) ^ (e + 1))
    (h3 : q * (2 : ℚ) ^ (52 - e) = (f : ℚ) + 1/2) (heven : 2 ∣ f)
    (h5 : (f : ℚ) * (2 : ℚ) ^ (e - 52) = out) : roundDouble q = out := by
  rw [roundDouble_eq_of h1 h2, roundHalfEven_eq_tie_even h3 heven, h5]

/-! ### Concrete binary64 evaluations used by the luminance analysis -/

theorem double0299_eq : double0299 = 5386305154335113/18014398509481984 := by
  rw [double0299]
  exact roundDouble_eval_down (-2) 5386305154335113 (by norm_num) (by norm_num) (by norm_num) (by norm_num) (by norm_num)

theorem double0587_eq : double0587 = 2643612981266481/4503599627370496 := by
  rw [double0587]
  exact roundDouble_eval_down (-1) 5287225962532962 (by norm_num) (by norm_num) (by norm_num) (by norm_num) (by norm_num)

theorem double0114_eq : double0114 = 8214565720323785/72057594037927936 := by
  rw [double0114]
  exact roundDouble_eval_up (-4) 8214565720323784 (by norm_num) (by norm_num) (by norm_num) (by norm_num) (by norm_num)

theorem jsLuminance_128 : jsLuminance 128 128 128 = 9007199254740991/70368744177664 := by
  have t1 : roundDouble (5386305154335113/18014398509481984 * 128 : ℚ) = 5386305154335113/140737488355328 :=
    roundDouble_eval_down 5 5386305154335113 (by norm_num) (by norm_num) (by norm_num) (by norm_num) (by norm_num)
  have t2 : roundDouble (2643612981266481/4503599627370496 * 128 : ℚ) = 2643612981266481/35184372088832 :=
    roundDouble_eval_down 6 5287225962532962 (by norm_num) (by norm_num) (by norm_num) (by norm_num) (by norm_num)
  have t3 : roundDouble (8214565720323785/72057594037927936 * 128 : ℚ) = 8214565720323785/562949953421312 :=
    roundDouble_eval_down 3 8214565720323785 (by norm_num) (by norm_num) (by norm_num) (by norm_num) (by norm_num)
  have s1 : roundDouble ((5386305154335113/140737488355328 : ℚ) + 2643612981266481/35184372088832) = 3990189269850259/35184372088832 :=
    roundDouble_eval_tie_even 6 7980378539700518 (by norm_num) (by norm_num) (by norm_num) (by norm_num) (by norm_num)
  have s2 : roundDouble ((3990189269850259/35184372088832 : ℚ) + 8214565720323785/562949953421312) = 9007199254740991/70368744177664 :=
    roundDouble_eval_down 6 9007199254740991 (by norm_num) (by norm_num) (by norm_num) (by norm_num) (by norm_num)
  rw [jsLuminance, double0299_eq, double0587_eq, double0114_eq, t1, t2, t3, s1, s2]

theorem jsLuminance_184 : jsLuminance 184 184 184 = 184 := by
  have t1 : roundDouble (5386305154335113/18014398509481984 * 184 : ℚ) = 7742813659356725/140737488355328 :=
    roundDouble_eval_up 5 7742813659356724 (by norm_num) (by norm_num) (by norm_num) (by norm_num) (by norm_num)
  have t2 : roundDouble (2643612981266481/4503599627370496 * 184 : ℚ) = 7600387321141133/70368744177664 :=
    roundDouble_eval_up 6 7600387321141132 (by norm_num) (by norm_num) (by norm_num) (by norm_num) (by norm_num)
  have t3 : roundDouble (8214565720323785/72057594037927936 * 184 : ℚ) = 184506847233835/8796093022208 :=
    roundDouble_eval_down 4 5904219111482720 (by norm_num) (by norm_num) (by norm_num) (by norm_num) (by norm_num)
  have s1 : roundDouble ((7742813659356725/140737488355328 : ℚ) + 7600387321141133/70368744177664) = 1433974268852437/8796093022208 :=
    roundDouble_eval_up 7 5735897075409747 (by norm_num) (by norm_num) (by norm_num) (by norm_num) (by norm_num)
  have s2 : roundDouble ((1433974268852437/8796093022208 : ℚ) + 184506847233835/8796093022208) = 184 :=
    roundDouble_eval_down 7 6473924464345088 (by norm_num) (by norm_num) (by norm_num) (by norm_num) (by norm_num)
  rw [jsLuminance, double0299_eq, double0587_eq, double0114_eq, t1, t2, t3, s1, s2]

theorem jsLuminance_155 : jsLuminance 155 155 155 = 155 := by
  have t1 : roundDouble (5386305154335113/18014398509481984 * 155 : ℚ) = 1630619724456919/35184372088832 :=
    roundDouble_eval_up 5 6522478897827675 (by norm_num) (by norm_num) (by norm_num) (by norm_num) (by norm_num)
  have t2 : roundDouble (2643612981266481/4503599627370496 * 155 : ℚ) = 6402500189004759/70368744177664 :=
    roundDouble_eval_up 6 6402500189004758 (by norm_num) (by norm_num) (by norm_num) (by norm_num) (by norm_num)
  have t3 : roundDouble (8214565720323785/72057594037927936 * 155 : ℚ) = 1243415709619323/70368744177664 :=
    roundDouble_eval_up 4 4973662838477291 (by norm_num) (by norm_num) (by norm_num) (by norm_num) (by norm_num)
  have s1 : roundDouble ((1630619724456919/35184372088832 : ℚ) + 6402500189004759/70368744177664) = 2415934909479649/17592186044416 :=
    roundDouble_eval_tie_even 7 4831869818959298 (by norm_num) (by norm_num) (by norm_num) (by norm_num) (by norm_num)
  have s2 : roundDouble ((2415934909479649/17592186044416 : ℚ) + 1243415709619323/70368744177664) = 155 :=
    roundDouble_eval_tie_odd 7 5453577673768959 (by norm_num) (by norm_num) (by norm_num) (by norm_num) (by norm_num)
  rw [jsLuminance, double0299_eq, double0587_eq, double0114_eq, t1, t2, t3, s1, s2]

theorem jsLuminance_70 : jsLuminance 70 70 70 = 70 := by
  have t1 : roundDouble (5386305154335113/18014398509481984 * 70 : ℚ) = 2945635631277015/140737488355328 :=
    roundDouble_eval_up 4 5891271262554029 (by norm_num) (by norm_num) (by norm_num) (by norm_num) (by norm_num)
  have t2 : roundDouble (2643612981266481/4503599627370496 * 70 : ℚ) = 5782903396520427/140737488355328 :=
    roundDouble_eval_down 5 5782903396520427 (by norm_num) (by norm_num) (by norm_num) (by norm_num) (by norm_num)
  have t3 : roundDouble (8214565720323785/72057594037927936 * 70 : ℚ) = 2246170314151035/281474976710656 :=
    roundDouble_eval_up 2 8984681256604139 (by norm_num) (by norm_num) (by norm_num) (by norm_num) (by norm_num)
  have s1 : roundDouble ((2945635631277015/140737488355328 : ℚ) + 5782903396520427/140737488355328) = 4364269513898721/70368744177664 :=
    roundDouble_eval_down 5 8728539027797442 (by norm_num) (by norm_num) (by norm_num) (by norm_num) (by norm_num)
  have s2 : roundDouble ((4364269513898721/70368744177664 : ℚ) + 2246170314151035/281474976710656) = 70 :=
    roundDouble_eval_up 6 4925812092436479 (by norm_num) (by norm_num) (by norm_num) (by norm_num) (by norm_num)
  rw [jsLuminance, double0299_eq, double0587_eq, double0114_eq, t1, t2, t3, s1, s2]

theorem jsLuminance_200 : jsLuminance 200 200 200 = 200 := by
  have t1 : roundDouble (5386305154335113/18014398509481984 * 200 : ℚ) = 4208050901824307/70368744177664 :=
    roundDouble_eval_down 5 8416101803648614 (by norm_num) (by norm_num) (by norm_num) (by norm_num) (by norm_num)
  have t2 : roundDouble (2643612981266481/4503599627370496 * 200 : ℚ) = 8261290566457753/70368744177664 :=
    roundDouble_eval_down 6 8261290566457753 (by norm_num) (by norm_num) (by norm_num) (by norm_num) (by norm_num)
  have t3 : roundDouble (8214565720323785/72057594037927936 * 200 : ℚ) = 6417629469002957/281474976710656 :=
    roundDouble_eval_down 4 6417629469002957 (by norm_num) (by norm_num) (by norm_num) (by norm_num) (by norm_num)
  have s1 : roundDouble ((4208050901824307/70368744177664 : ℚ) + 8261290566457753/70368744177664) = 3117335367070515/17592186044416 :=
    roundDouble_eval_down 7 6234670734141030 (by norm_num) (by norm_num) (by norm_num) (by norm_num) (by norm_num)
  have s2 : roundDouble ((3117335367070515/17592186044416 : ℚ) + 6417629469002957/281474976710656) = 200 :=
    roundDouble_eval_up 7 7036874417766399 (by norm_num) (by norm_num) (by norm_num) (by norm_num) (by norm_num)
  rw [jsLuminance, double0299_eq, double0587_eq, double0114_eq, t1, t2, t3, s1, s2]

theorem jsLuminance_50 : jsLuminance 50 50 50 = 50 := by
  have t1 : roundDouble (5386305154335113/18014398509481984 * 50 : ℚ) = 4208050901824307/281474976710656 :=
    roundDouble_eval_down 3 8416101803648614 (by norm_num) (by norm_num) (by norm_num) (by norm_num) (by norm_num)
  have t2 : roundDouble (2643612981266481/4503599627370496 * 50 : ℚ) = 8261290566457753/281474976710656 :=
    roundDouble_eval_down 4 8261290566457753 (by norm_num) (by norm_num) (by norm_num) (by norm_num) (by norm_num)
  have t3 : roundDouble (8214565720323785/72057594037927936 * 50 : ℚ) = 6417629469002957/1125899906842624 :=
    roundDouble_eval_down 2 6417629469002957 (by norm_num) (by norm_num) (by norm_num) (by norm_num) (by norm_num)
  have s1 : roundDouble ((4208050901824307/281474976710656 : ℚ) + 8261290566457753/281474976710656) = 3117335367070515/70368744177664 :=
    roundDouble_eval_down 5 6234670734141030 (by norm_num) (by norm_num) (by norm_num) (by norm_num) (by norm_num)
  have s2 : roundDouble ((3117335367070515/70368744177664 : ℚ) + 6417629469002957/1125899906842624) = 50 :=
    roundDouble_eval_up 5 7036874417766399 (by norm_num) (by norm_num) (by norm_num) (by norm_num) (by norm_num)
  rw [jsLuminance, double0299_eq, double0587_eq, double0114_eq, t1, t2, t3, s1, s2]

/-! ### The monochrome resolver at the concrete gray levels of the analysis -/

theorem monochromeResolver_gray128 :
    monochromeResolver (some 128) 128 128 128 = [0, 0, 0] := by
  simp only [monochromeResolver, ColorPalettes.findClosestMonochromeColor, jsLuminance_128]
  rw [if_pos (by norm_num)]

theorem monochromeResolver_gray184 :
    monochromeResolver (some 128) 184 184 184 = [255, 255, 255] := by
  simp only [monochromeResolver, ColorPalettes.findClosestMonochromeColor, jsLuminance_184]
  rw [if_neg (by norm_num)]

theorem monochromeResolver_gray155 :
    monochromeResolver (some 128) 155 155 155 = [255, 255, 255] := by
  simp only [monochromeResolver, ColorPalettes.findClosestMonochromeColor, jsLuminance_155]
  rw [if_neg (by norm_num)]

theorem monochromeResolver_gray70 :
    monochromeResolver (some 128) 70 70 70 = [0, 0, 0] := by
  simp only [monochromeResolver, ColorPalettes.findClosestMonochromeColor, jsLuminance_70]
  rw [if_pos (by norm_num)]

/-! ### Generic lemmas about `Option`-threaded folds -/

theorem foldlM_congr_mem {σ α : Type*} (f g : σ → α → Option σ) :
    ∀ l : List α, (∀ s a, a ∈ l → f s a = g s a) →
      ∀ init : σ, l.foldlM f init = l.foldlM g init := by
  intro l
  induction l with
  | nil => intro _ _; rfl
  | cons a t ih =>
    intro h init
    simp only [List.foldlM_cons]
    rw [h init a (List.mem_cons_self a t)]
    cases hg : g init a with
    | none => rfl
    | some s =>
      simp only [Option.bind_eq_bind, Option.some_bind]
      exact ih (fun s b hb => h s b (List.mem_cons_of_mem a hb)) s

theorem foldlM_preserves {σ α : Type*} (f : σ → α → Option σ) (P : σ → Prop) :
    ∀ l : List α, (∀ s a s', a ∈ l → P s → f s a = some s' → P s') →
      ∀ init s, l.foldlM f init = some s → P init → P s := by
  intro l
  induction l with
  | nil =>
    intro _ init s h hP
    simp only [List.foldlM_nil] at h
    cases h
    exact hP
  | cons a t ih =>
    intro hstep init s hfold hP
    simp only [List.foldlM_cons] at hfold
    cases hfa : f init a with
    | none =>
      rw [hfa] at hfold
      simp at hfold
    | some s1 =>
      rw [hfa] at hfold
      simp only [Option.bind_eq_bind, Option.some_bind] at hfold
      exact ih (fun u b u' hb => hstep u b u' (List.mem_cons_of_mem a hb)) s1 s hfold
        (hstep init a s1 (List.mem_cons_self a t) hP hfa)

theorem foldlM_total {σ α : Type*} (f : σ → α → Option σ) (P : σ → Prop) :
    ∀ l : List α, (∀ s a, a ∈ l → P s → ∃ s', f s a = some s' ∧ P s') →
      ∀ init, P init → ∃ s, l.foldlM f init = some s ∧ P s := by
  intro l
  induction l with
  | nil =>
    intro _ init hP
    exact ⟨init, rfl, hP⟩
  | cons a t ih =>
    intro hstep init hP
    obtain ⟨s1, hs1, hPs1⟩ := hstep init a (List.mem_cons_self a t) hP
    obtain ⟨s, hs, hPs⟩ := ih (fun u b hb => hstep u b (List.mem_cons_of_mem a hb)) s1 hPs1
    refine ⟨s, ?_, hPs⟩
    simp only [List.foldlM_cons, hs1, Option.bind_eq_bind, Option.some_bind]
    exact hs

theorem foldlM_flatMap {σ α β : Type*} (g : α → List β) (f : σ → β → Option σ) :
    ∀ (l : List α) (init : σ),
      (l.flatMap g).foldlM f init = l.foldlM (fun s a => (g a).foldlM f s) init := by
  intro l
  induction l with
  | nil => intro _; rfl
  | cons a t ih =>
    intro init
    rw [List.flatMap_cons, List.foldlM_append, List.foldlM_cons]
    cases hg : (g a).foldlM f init with
    | none => rfl
    | some s =>
      simp only [Option.bind_eq_bind, Option.some_bind]
      exact ih s

/-! ### The row-major visitation order of the double loops -/

/-- All pixel coordinates `(x, y)` in the order the double loops visit them:
`y` outer ascending, `x` inner ascending. -/
def rowMajorCoords (width height : ℕ) : List (ℕ × ℕ) :=
  (List.range height).flatMap fun y => (List.range width).map fun x => (x, y)

theorem nestedFold_eq_rowMajor {σ : Type*} (width height : ℕ)
    (F : ℕ → ℕ → σ → Option σ) (init : σ) :
    (List.range height).foldlM
        (fun st y => (List.range width).foldlM (fun st x => F y x st) st) init
      = (rowMajorCoords width height).foldlM (fun st p => F p.2 p.1 st) init := by
  rw [rowMajorCoords, foldlM_flatMap]
  refine foldlM_congr_mem _ _ (List.range height) ?_ init
  intro s y _
  rw [List.foldlM_map]

theorem mem_rowMajorCoords {width height x y : ℕ} :
    (x, y) ∈ rowMajorCoords width height ↔ x < width ∧ y < height := by
  simp only [rowMajorCoords, List.mem_flatMap, List.mem_map, List.mem_range, Prod.mk.injEq]
  constructor
  · rintro ⟨y', hy', x', hx', hxx, hyy⟩
    subst hxx
    subst hyy
    exact ⟨hx', hy'⟩
  · rintro ⟨hx, hy⟩
    exact ⟨y, hy, x, hx, rfl, rfl⟩

theorem rowMajorCoords_eq (width height : ℕ) :
    rowMajorCoords width height
      = (List.range (height * width)).map fun k => (k % width, k / width) := by
  induction height with
  | zero => simp [rowMajorCoords]
  | succ h ih =>
    have hsplit : (h + 1) * width = h * width + width := by ring
    rw [rowMajorCoords, List.range_succ, List.flatMap_append, hsplit, List.range_add,
      List.map_append]
    rw [rowMajorCoords] at ih
    rw [ih]
    congr 1
    simp only [List.flatMap_cons, List.flatMap_nil, List.append_nil, List.map_map]
    refine List.map_congr_left ?_
    intro x hx
    rw [List.mem_range] at hx
    have hw : 0 < width := by omega
    simp only [Function.comp_apply]
    have hmod : (h * width + x) % width = x := by
      rw [Nat.mul_comm h width, Nat.mul_add_mod, Nat.mod_eq_of_lt hx]
    have hdiv : (h * width + x) / width = h := by
      rw [Nat.mul_comm h width, Nat.mul_add_div hw, Nat.div_eq_of_lt hx]
      omega
    rw [hmod, hdiv]

theorem range_split {N k : ℕ} (h : k < N) :
    List.range N = List.range k ++ k :: ((List.range (N - k - 1)).map fun j => k + 1 + j) := by
  have hN : N = k + (1 + (N - k - 1)) := by omega
  conv_lhs => rw [hN, List.range_add, List.range_add, show List.range 1 = [0] by decide]
  simp only [List.map_append, List.map_cons, List.map_nil, List.map_map, List.cons_append,
    List.nil_append, Function.comp_def]
  rw [Nat.add_zero]
  exact congrArg _ (congrArg _ (List.map_congr_left fun j _ => by omega))

/-! ### Buffer access wrappers -/

theorem getD_set_self {l : List ℕ} {i v : ℕ} (h : i < l.length) :
    (l.set i v).getD i 0 = v := by
  simp [List.getD_eq_getElem?_getD, List.getElem?_set_self h]

theorem getD_set_ne {l : List ℕ} {i j v : ℕ} (h : i ≠ j) :
    (l.set i v).getD j 0 = l.getD j 0 := by
  simp [List.getD_eq_getElem?_getD, List.getElem?_set_ne h]

/-! ### Structure of the ordered-dithering loop -/

/-- The color the resolver is asked for at pixel `(x, y)` during ordered
dithering, and its answer: exactly the `closestColor` of the loop body. -/
def Dithering.ordResolve (width : ℕ) (data : List ℕ) (normalizedMatrix : List (List ℚ))
    (n : ℕ) (findClosestColor : Resolver) (y x : ℕ) : Color :=
  let idx := (y * width + x) * 4
  let r : ℚ := (data.getD idx 0 : ℚ)
  let g : ℚ := (data.getD (idx + 1) 0 : ℚ)
  let b : ℚ := (data.getD (idx + 2) 0 : ℚ)
  let threshold := ((normalizedMatrix.getD (y % n) []).getD (x % n) 0) * 255
  let adjustedR := min 255 (max 0 (r + threshold))
  let adjustedG := min 255 (max 0 (g + threshold))
  let adjustedB := min 255 (max 0 (b + threshold))
  findClosestColor adjustedR adjustedG adjustedB

theorem ordPixel_eq (width : ℕ) (data : List ℕ) (nm : List (List ℚ)) (n : ℕ)
    (resolve : Resolver) (y x : ℕ) (out : List ℕ) :
    Dithering.ordPixel width data nm n resolve y x out
      = if (Dithering.ordResolve width data nm n resolve y x).length < 3 then none
        else some
          ((((out.set ((y * width + x) * 4)
              (toUint8Clamp ((Dithering.ordResolve width data nm n resolve y x).getD 0 0))).set
                ((y * width + x) * 4 + 1)
              (toUint8Clamp ((Dithering.ordResolve width data nm n resolve y x).getD 1 0))).set
                ((y * width + x) * 4 + 2)
              (toUint8Clamp ((Dithering.ordResolve width data nm n resolve y x).getD 2 0))).set
                ((y * width + x) * 4 + 3)
              (data.getD ((y * width + x) * 4 + 3) 0)) := rfl

theorem ordPixel_length {width : ℕ} {data : List ℕ} {nm : List (List ℚ)} {n : ℕ}
    {resolve : Resolver} {y x : ℕ} {out out' : List ℕ}
    (h : Dithering.ordPixel width data nm n resolve y x out = some out') :
    out'.length = out.length := by
  rw [ordPixel_eq] at h
  split at h
  · cases h
  · cases h
    simp [List.length_set]

theorem ordPixel_preserve_lt {width : ℕ} {data : List ℕ} {nm : List (List ℚ)} {n : ℕ}
    {resolve : Resolver} {y x : ℕ} {out out' : List ℕ}
    (h : Dithering.ordPixel width data nm n resolve y x out = some out')
    {j : ℕ} (hj : j < (y * width + x) * 4) :
    out'.getD j 0 = out.getD j 0 := by
  rw [ordPixel_eq] at h
  split at h
  · cases h
  · cases h
    rw [getD_set_ne (by omega), getD_set_ne (by omega), getD_set_ne (by omega),
      getD_set_ne (by omega)]

theorem ordPixel_slots {width : ℕ} {data : List ℕ} {nm : List (List ℚ)} {n : ℕ}
    {resolve : Resolver} {y x : ℕ} {out out' : List ℕ}
    (h : Dithering.ordPixel width data nm n resolve y x out = some out')
    (hlen : (y * width + x) * 4 + 3 < out.length) :
    (∀ c, c < 3 → out'.getD ((y * width + x) * 4 + c) 0
        = toUint8Clamp ((Dithering.ordResolve width data nm n resolve y x).getD c 0)) ∧
      out'.getD ((y * width + x) * 4 + 3) 0 = data.getD ((y * width + x) * 4 + 3) 0 := by
  rw [ordPixel_eq] at h
  split at h
  · cases h
  · cases h
    constructor
    · intro c hc
      interval_cases c
      · rw [getD_set_ne (by omega), getD_set_ne (by omega), getD_set_ne (by omega)]
        have : (y * width + x) * 4 < out.length := by omega
        exact getD_set_self this
      · rw [getD_set_ne (by omega), getD_set_ne (by omega)]
        have : (y * width + x) * 4 + 1 < (out.set ((y * width + x) * 4)
            (toUint8Clamp ((Dithering.ordResolve width data nm n resolve y x).getD 0 0))).length := by
          simp [List.length_set]
          omega
        exact getD_set_self this
      · rw [getD_set_ne (by omega)]
        have : (y * width + x) * 4 + 2 < ((out.set ((y * width + x) * 4)
            (toUint8Clamp ((Dithering.ordResolve width data nm n resolve y x).getD 0 0))).set
              ((y * width + x) * 4 + 1)
            (toUint8Clamp ((Dithering.ordResolve width data nm n resolve y x).getD 1 0))).length := by
          simp [List.length_set]
          omega
        exact getD_set_self this
    · have : (y * width + x) * 4 + 3 < (((out.set ((y * width + x) * 4)
          (toUint8Clamp ((Dithering.ordResolve width data nm n resolve y x).getD 0 0))).set
            ((y * width + x) * 4 + 1)
          (toUint8Clamp ((Dithering.ordResolve width data nm n resolve y x).getD 1 0))).set
            ((y * width + x) * 4 + 2)
          (toUint8Clamp ((Dithering.ordResolve width data nm n resolve y x).getD 2 0))).length := by
        simp [List.length_set]
        omega
      exact getD_set_self this

/-- The ordered-dithering loop body re-indexed by the linear pixel number. -/
def Dithering.ordStep (width : ℕ) (data : List ℕ) (nm : List (List ℚ)) (n : ℕ)
    (resolve : Resolver) (st : List ℕ) (k : ℕ) : Option (List ℕ) :=
  Dithering.ordPixel width data nm n resolve (k / width) (k % width) st

theorem orderedLoop_eq_flat (width height : ℕ) (data : List ℕ) (nm : List (List ℚ)) (n : ℕ)
    (resolve : Resolver) (init : List ℕ) :
    (List.range height).foldlM
        (fun out y => (List.range width).foldlM
          (fun out x => Dithering.ordPixel width data nm n resolve y x out) out) init
      = (List.range (height * width)).foldlM (Dithering.ordStep width data nm n resolve) init := by
  rw [nestedFold_eq_rowMajor width height
    (fun y x st => Dithering.ordPixel width data nm n resolve y x st) init,
    rowMajorCoords_eq, List.foldlM_map]
  rfl

theorem pixelIndex_lt {width height x y : ℕ} (hx : x < width) (hy : y < height) :
    y * width + x < height * width := by
  calc y * width + x < y * width + width := by omega
    _ = (y + 1) * width := by ring
    _ ≤ height * width := Nat.mul_le_mul_right width (by omega)

theorem orderedCore_getD (matrix : List (List ℕ)) (n : ℕ) (img : ImageData)
    (resolve : Resolver) (out : ImageData) {x y : ℕ}
    (hlen : img.data.length = img.width * img.height * 4)
    (hres : Dithering.orderedCore matrix n img resolve = some out)
    (hx : x < img.width) (hy : y < img.height) :
    out.width = img.width ∧ out.height = img.height ∧ out.data.length = img.data.length ∧
    (∀ c, c < 3 → out.data.getD ((y * img.width + x) * 4 + c) 0
        = toUint8Clamp ((Dithering.ordResolve img.width img.data
            (matrix.map fun row => row.map fun (val : ℕ) => ((val : ℚ) + 1/2) / ((n : ℚ) * n) - 1/2)
            n resolve y x).getD c 0)) ∧
    out.data.getD ((y * img.width + x) * 4 + 3) 0
      = img.data.getD ((y * img.width + x) * 4 + 3) 0 := by
  simp only [Dithering.orderedCore] at hres
  rw [orderedLoop_eq_flat] at hres
  cases hfold : (List.range (img.height * img.width)).foldlM
      (Dithering.ordStep img.width img.data
        (matrix.map fun row => row.map fun (val : ℕ) => ((val : ℚ) + 1/2) / ((n : ℚ) * n) - 1/2)
        n resolve)
      (List.replicate img.data.length 0) with
  | none => rw [hfold] at hres; cases hres
  | some stOut =>
    rw [hfold] at hres
    cases hres
    have hw0 : 0 < img.width := by omega
    have hcm : img.width * img.height = img.height * img.width := Nat.mul_comm _ _
    have hk : y * img.width + x < img.height * img.width := pixelIndex_lt hx hy
    rw [range_split hk, List.foldlM_append] at hfold
    simp only [List.foldlM_cons] at hfold
    -- invert the first bind
    cases hA : (List.range (y * img.width + x)).foldlM
        (Dithering.ordStep img.width img.data
          (matrix.map fun row => row.map fun (val : ℕ) => ((val : ℚ) + 1/2) / ((n : ℚ) * n) - 1/2)
          n resolve)
        (List.replicate img.data.length 0) with
    | none => rw [hA] at hfold; cases hfold
    | some st1 =>
      rw [hA] at hfold
      simp only [Option.bind_eq_bind, Option.some_bind] at hfold
      have hst1len : st1.length = img.data.length := by
        refine foldlM_preserves _ (fun l => l.length = img.data.length) _ ?_ _ _ hA (by simp)
        intro s a s' _ hP hstep
        rw [ordPixel_length hstep]
        exact hP
      have hdiv : (y * img.width + x) / img.width = y := by
        rw [Nat.mul_comm y img.width, Nat.mul_add_div hw0, Nat.div_eq_of_lt hx]
        omega
      have hmod : (y * img.width + x) % img.width = x := by
        rw [Nat.mul_comm y img.width, Nat.mul_add_mod, Nat.mod_eq_of_lt hx]
      cases hB : Dithering.ordStep img.width img.data
          (matrix.map fun row => row.map fun (val : ℕ) => ((val : ℚ) + 1/2) / ((n : ℚ) * n) - 1/2)
          n resolve st1 (y * img.width + x) with
      | none => rw [hB] at hfold; cases hfold
      | some st2 =>
        rw [hB] at hfold
        simp only [Option.bind_eq_bind, Option.some_bind] at hfold
        rw [Dithering.ordStep, hdiv, hmod] at hB
        have hidx : (y * img.width + x) * 4 + 3 < st1.length := by
          rw [hst1len, hlen]
          omega
        have hslots := ordPixel_slots hB hidx
        have hst2len : st2.length = img.data.length := by
          rw [ordPixel_length hB]
          exact hst1len
        -- the remaining pixels only write above our four slots
        have hkeep : stOut.length = img.data.length ∧
            (∀ c, c < 4 → stOut.getD ((y * img.width + x) * 4 + c) 0
              = st2.getD ((y * img.width + x) * 4 + c) 0) := by
          refine foldlM_preserves _
            (fun l => l.length = img.data.length ∧
              (∀ c, c < 4 → l.getD ((y * img.width + x) * 4 + c) 0
                = st2.getD ((y * img.width + x) * 4 + c) 0)) _ ?_ _ _ hfold
            ⟨hst2len, fun _ _ => rfl⟩
          intro s a s' ha hP hstep
          obtain ⟨j, _, rfl⟩ := List.mem_map.mp ha
          rw [Dithering.ordStep] at hstep
          have hbase : (y * img.width + x + 1 + j) / img.width * img.width
              + (y * img.width + x + 1 + j) % img.width = y * img.width + x + 1 + j := by
            rw [Nat.mul_comm]
            exact Nat.div_add_mod _ _
          constructor
          · rw [ordPixel_length hstep]
            exact hP.1
          · intro c hc
            rw [ordPixel_preserve_lt hstep (by omega)]
            exact hP.2 c hc
        refine ⟨rfl, rfl, hkeep.1, ?_, ?_⟩
        · intro c hc
          rw [hkeep.2 c (by omega)]
          exact hslots.1 c hc
        · rw [hkeep.2 3 (by omega)]
          exact hslots.2

/-! ### Structure of the Floyd–Steinberg loop -/

theorem getD_set_of_le {l : List ℕ} {i v : ℕ} (h : l.length ≤ i) : l.set i v = l :=
  List.set_eq_of_length_le h

theorem addErr_length (d : List ℕ) (i : ℕ) (e w : ℚ) : (addErr d i e w).length = d.length := by
  simp [addErr]

theorem addErr3_length (d : List ℕ) (i : ℕ) (eR eG eB w : ℚ) :
    (addErr3 d i eR eG eB w).length = d.length := by
  simp [addErr3, addErr_length]

theorem addErr3_getD_alpha (d : List ℕ) (i : ℕ) (eR eG eB w : ℚ) (hi : i % 4 = 0) (j : ℕ) :
    (addErr3 d i eR eG eB w).getD (4 * j + 3) 0 = d.getD (4 * j + 3) 0 := by
  simp only [addErr3, addErr]
  rw [getD_set_ne (by omega), getD_set_ne (by omega), getD_set_ne (by omega)]

theorem mem_set_le {l : List ℕ} {i v : ℕ} (hl : ∀ u ∈ l, u ≤ 255) (hv : v ≤ 255) :
    ∀ u ∈ l.set i v, u ≤ 255 := fun u hu =>
  (List.mem_or_eq_of_mem_set hu).elim (hl u) (fun h => h ▸ hv)

theorem getD_le {l : List ℕ} (hl : ∀ u ∈ l, u ≤ 255) (j : ℕ) : l.getD j 0 ≤ 255 := by
  rw [List.getD_eq_getElem?_getD]
  cases hj : l[j]? with
  | none => simp
  | some v =>
    have : v ∈ l := List.getElem?_mem hj
    simpa using hl v this

theorem addErr3_mem_le {d : List ℕ} (hd : ∀ u ∈ d, u ≤ 255) (i : ℕ) (eR eG eB w : ℚ) :
    ∀ u ∈ addErr3 d i eR eG eB w, u ≤ 255 := by
  simp only [addErr3, addErr]
  exact mem_set_le (mem_set_le (mem_set_le hd (toUint8Clamp_le _)) (toUint8Clamp_le _))
    (toUint8Clamp_le _)

/-- The four not-yet-visited neighbors of error diffusion, exactly as the
claim lists them: coordinate offset `(dx, dy)` and weight —
right `7/16`, below-left `3/16`, below `5/16`, below-right `1/16`. -/
def fsNeighbors : List (ℤ × ℤ × ℚ) :=
  [(1, 0, 7/16), (-1, 1, 3/16), (0, 1, 5/16), (1, 1, 1/16)]


/-- The error-diffusion pixel step written to the claim's words: resolve the
current working RGB at `(x, y)`, write the chosen color (and source alpha) to
the output at `(x, y)`, then add the weighted quantization error to the
working buffer at every in-bounds neighbor of `fsNeighbors`, each addition
rounded to the nearest integer and clamped to `[0, 255]` as it is stored. -/
def fsSpecStep (width height : ℕ) (resolve : Resolver) (p : ℕ × ℕ)
    (st : List ℕ × List ℕ) : Option (List ℕ × List ℕ) :=
  let x := p.1
  let y := p.2
  let idx := (y * width + x) * 4
  let r : ℚ := (st.1.getD idx 0 : ℚ)
  let g : ℚ := (st.1.getD (idx + 1) 0 : ℚ)
  let b : ℚ := (st.1.getD (idx + 2) 0 : ℚ)
  let chosen := resolve r g b
  if chosen.length < 3 then none
  else
    let output := (((st.2.set idx (toUint8Clamp (chosen.getD 0 0))).set (idx + 1)
      (toUint8Clamp (chosen.getD 1 0))).set (idx + 2)
      (toUint8Clamp (chosen.getD 2 0))).set (idx + 3) (st.1.getD (idx + 3) 0)
    let errorR := r - chosen.getD 0 0
    let errorG := g - chosen.getD 1 0
    let errorB := b - chosen.getD 2 0
    let data := fsNeighbors.foldl
      (fun d nbr =>
        if 0 ≤ (x : ℤ) + nbr.1 ∧ (x : ℤ) + nbr.1 < (width : ℤ) ∧
            0 ≤ (y : ℤ) + nbr.2.1 ∧ (y : ℤ) + nbr.2.1 < (height : ℤ) then
          addErr3 d ((((y : ℤ) + nbr.2.1).toNat * width + ((x : ℤ) + nbr.1).toNat) * 4)
            errorR errorG errorB nbr.2.2
        else d)
      st.1
    some (data, output)

/-- Error diffusion as the claim describes it: one pass over the pixels in
row-major order (`y` outer ascending, `x` inner ascending), each step
`fsSpecStep`. -/
def floydSteinbergSpec (img : ImageData) (resolve : Resolver) : Option ImageData :=
  match (rowMajorCoords img.width img.height).foldlM
      (fun st p => fsSpecStep img.width img.height resolve p st) (img.data, img.data) with
  | none => none
  | some st => some ⟨img.width, img.height, st.2⟩

theorem fsNeighbors_fold_eq (width height x y : ℕ) (hx : x < width) (hy : y < height)
    (d : List ℕ) (eR eG eB : ℚ) :
    fsNeighbors.foldl
        (fun d nbr =>
          if 0 ≤ (x : ℤ) + nbr.1 ∧ (x : ℤ) + nbr.1 < (width : ℤ) ∧
              0 ≤ (y : ℤ) + nbr.2.1 ∧ (y : ℤ) + nbr.2.1 < (height : ℤ) then
            addErr3 d ((((y : ℤ) + nbr.2.1).toNat * width + ((x : ℤ) + nbr.1).toNat) * 4)
              eR eG eB nbr.2.2
          else d)
        d
      = (let d1 := if x + 1 < width then
            addErr3 d ((y * width + (x + 1)) * 4) eR eG eB (7/16) else d
         let d2 := if 1 ≤ x ∧ y + 1 < height then
            addErr3 d1 (((y + 1) * width + (x - 1)) * 4) eR eG eB (3/16) else d1
         let d3 := if y + 1 < height then
            addErr3 d2 (((y + 1) * width + x) * 4) eR eG eB (5/16) else d2
         if x + 1 < width ∧ y + 1 < height then
            addErr3 d3 (((y + 1) * width + (x + 1)) * 4) eR eG eB (1/16) else d3) := by
  simp only [fsNeighbors, List.foldl_cons, List.foldl_nil]
  have s1 : (if 0 ≤ (x : ℤ) + 1 ∧ (x : ℤ) + 1 < (width : ℤ) ∧
        0 ≤ (y : ℤ) + 0 ∧ (y : ℤ) + 0 < (height : ℤ) then
        addErr3 d ((((y : ℤ) + 0).toNat * width + ((x : ℤ) + 1).toNat) * 4) eR eG eB (7/16)
      else d)
      = (if x + 1 < width then addErr3 d ((y * width + (x + 1)) * 4) eR eG eB (7/16) else d) := by
    split_ifs with ha hb hb
    · rw [show ((y : ℤ) + 0).toNat = y by omega, show ((x : ℤ) + 1).toNat = x + 1 by omega]
    · exact absurd (by omega : x + 1 < width) hb
    · exact absurd ⟨by omega, by omega, by omega, by omega⟩ ha
    · rfl
  rw [s1]
  generalize (if x + 1 < width then addErr3 d ((y * width + (x + 1)) * 4) eR eG eB (7/16)
    else d) = d1
  have s2 : (if 0 ≤ (x : ℤ) + -1 ∧ (x : ℤ) + -1 < (width : ℤ) ∧
        0 ≤ (y : ℤ) + 1 ∧ (y : ℤ) + 1 < (height : ℤ) then
        addErr3 d1 ((((y : ℤ) + 1).toNat * width + ((x : ℤ) + -1).toNat) * 4) eR eG eB (3/16)
      else d1)
      = (if 1 ≤ x ∧ y + 1 < height then
        addErr3 d1 (((y + 1) * width + (x - 1)) * 4) eR eG eB (3/16) else d1) := by
    split_ifs with ha hb hb
    · rw [show ((y : ℤ) + 1).toNat = y + 1 by omega,
        show ((x : ℤ) + -1).toNat = x - 1 by omega]
    · exact absurd (⟨by omega, by omega⟩ : 1 ≤ x ∧ y + 1 < height) hb
    · exact absurd ⟨by omega, by omega, by omega, by omega⟩ ha
    · rfl
  rw [s2]
  generalize (if 1 ≤ x ∧ y + 1 < height then
    addErr3 d1 (((y + 1) * width + (x - 1)) * 4) eR eG eB (3/16) else d1) = d2
  have s3 : (if 0 ≤ (x : ℤ) + 0 ∧ (x : ℤ) + 0 < (width : ℤ) ∧
        0 ≤ (y : ℤ) + 1 ∧ (y : ℤ) + 1 < (height : ℤ) then
        addErr3 d2 ((((y : ℤ) + 1).toNat * width + ((x : ℤ) + 0).toNat) * 4) eR eG eB (5/16)
      else d2)
      = (if y + 1 < height then
        addErr3 d2 (((y + 1) * width + x) * 4) eR eG eB (5/16) else d2) := by
    split_ifs with ha hb hb
    · rw [show ((y : ℤ) + 1).toNat = y + 1 by omega, show ((x : ℤ) + 0).toNat = x by omega]
    · exact absurd (by omega : y + 1 < height) hb
    · exact absurd ⟨by omega, by omega, by omega, by omega⟩ ha
    · rfl
  rw [s3]
  generalize (if y + 1 < height then
    addErr3 d2 (((y + 1) * width + x) * 4) eR eG eB (5/16) else d2) = d3
  have s4 : (if 0 ≤ (x : ℤ) + 1 ∧ (x : ℤ) + 1 < (width : ℤ) ∧
        0 ≤ (y : ℤ) + 1 ∧ (y : ℤ) + 1 < (height : ℤ) then
        addErr3 d3 ((((y : ℤ) + 1).toNat * width + ((x : ℤ) + 1).toNat) * 4) eR eG eB (1/16)
      else d3)
      = (if x + 1 < width ∧ y + 1 < height then
        addErr3 d3 (((y + 1) * width + (x + 1)) * 4) eR eG eB (1/16) else d3) := by
    split_ifs with ha hb hb
    · rw [show ((y : ℤ) + 1).toNat = y + 1 by omega, show ((x : ℤ) + 1).toNat = x + 1 by omega]
    · exact absurd (⟨by omega, by omega⟩ : x + 1 < width ∧ y + 1 < height) hb
    · exact absurd ⟨by omega, by omega, by omega, by omega⟩ ha
    · rfl
  rw [s4]

theorem fsSpecStep_eq_fsPixel (width height : ℕ) (resolve : Resolver) {x y : ℕ}
    (hx : x < width) (hy : y < height) (st : List ℕ × List ℕ) :
    fsSpecStep width height resolve (x, y) st
      = Dithering.fsPixel width height resolve y x st := by
  simp only [fsSpecStep, Dithering.fsPixel]
  rw [fsNeighbors_fold_eq width height x y hx hy]

theorem cond_addErr3_getD_alpha (c : Prop) [Decidable c] (d : List ℕ) (m : ℕ)
    (eR eG eB w : ℚ) (j : ℕ) :
    (if c then addErr3 d (m * 4) eR eG eB w else d).getD (4 * j + 3) 0
      = d.getD (4 * j + 3) 0 := by
  split
  · exact addErr3_getD_alpha d (m * 4) eR eG eB w (Nat.mul_mod_left m 4) j
  · rfl

theorem cond_addErr3_length (c : Prop) [Decidable c] (d : List ℕ) (i : ℕ) (eR eG eB w : ℚ) :
    (if c then addErr3 d i eR eG eB w else d).length = d.length := by
  split
  · exact addErr3_length d i eR eG eB w
  · rfl

theorem cond_addErr3_mem_le (c : Prop) [Decidable c] {d : List ℕ} (hd : ∀ u ∈ d, u ≤ 255)
    (i : ℕ) (eR eG eB w : ℚ) :
    ∀ u ∈ (if c then addErr3 d i eR eG eB w else d), u ≤ 255 := by
  split
  · exact addErr3_mem_le hd i eR eG eB w
  · exact hd

theorem fsPixel_alpha {D0 : List ℕ} {width height : ℕ} {resolve : Resolver} {y x : ℕ}
    {st st' : List ℕ × List ℕ}
    (h : Dithering.fsPixel width height resolve y x st = some st')
    (hP : (∀ j, st.1.getD (4 * j + 3) 0 = D0.getD (4 * j + 3) 0) ∧
      (∀ j, st.2.getD (4 * j + 3) 0 = D0.getD (4 * j + 3) 0)) :
    (∀ j, st'.1.getD (4 * j + 3) 0 = D0.getD (4 * j + 3) 0) ∧
      (∀ j, st'.2.getD (4 * j + 3) 0 = D0.getD (4 * j + 3) 0) := by
  have hlen3 : ∀ (l : List ℕ) (v0 v1 v2 : ℕ),
      (((l.set ((y * width + x) * 4) v0).set ((y * width + x) * 4 + 1) v1).set
        ((y * width + x) * 4 + 2) v2).length = l.length := by
    intro l v0 v1 v2
    simp [List.length_set]
  simp only [Dithering.fsPixel] at h
  split at h
  · cases h
  · cases h
    constructor
    · intro j
      rw [cond_addErr3_getD_alpha, cond_addErr3_getD_alpha, cond_addErr3_getD_alpha,
        cond_addErr3_getD_alpha]
      exact hP.1 j
    · intro j
      by_cases hj : 4 * j + 3 = (y * width + x) * 4 + 3
      · by_cases hl : (y * width + x) * 4 + 3 < st.2.length
        · rw [hj, getD_set_self (by rw [hlen3]; exact hl)]
          have halpha := hP.1 (y * width + x)
          rw [show 4 * (y * width + x) + 3 = (y * width + x) * 4 + 3 by omega] at halpha
          exact halpha
        · rw [hj, getD_set_of_le (by rw [hlen3]; omega), getD_set_ne (by omega),
            getD_set_ne (by omega), getD_set_ne (by omega)]
          have halpha := hP.2 (y * width + x)
          rw [show 4 * (y * width + x) + 3 = (y * width + x) * 4 + 3 by omega] at halpha
          exact halpha
      · rw [getD_set_ne (by omega), getD_set_ne (by omega), getD_set_ne (by omega),
          getD_set_ne (by omega)]
        exact hP.2 j

theorem fsPixel_bounds {L : ℕ} {width height : ℕ} {resolve : Resolver} {y x : ℕ}
    {st st' : List ℕ × List ℕ}
    (h : Dithering.fsPixel width height resolve y x st = some st')
    (hP : st.1.length = L ∧ st.2.length = L ∧ (∀ u ∈ st.1, u ≤ 255) ∧ (∀ u ∈ st.2, u ≤ 255)) :
    st'.1.length = L ∧ st'.2.length = L ∧ (∀ u ∈ st'.1, u ≤ 255) ∧ (∀ u ∈ st'.2, u ≤ 255) := by
  obtain ⟨hl1, hl2, hb1, hb2⟩ := hP
  simp only [Dithering.fsPixel] at h
  split at h
  · cases h
  · cases h
    refine ⟨?_, ?_, ?_, ?_⟩
    · rw [cond_addErr3_length, cond_addErr3_length, cond_addErr3_length, cond_addErr3_length]
      exact hl1
    · simp only [List.length_set]
      exact hl2
    · exact cond_addErr3_mem_le _ (cond_addErr3_mem_le _ (cond_addErr3_mem_le _
        (cond_addErr3_mem_le _ hb1 _ _ _ _ _) _ _ _ _ _) _ _ _ _ _) _ _ _ _ _
    · refine mem_set_le (mem_set_le (mem_set_le (mem_set_le hb2 (toUint8Clamp_le _))
        (toUint8Clamp_le _)) (toUint8Clamp_le _)) ?_
      exact getD_le hb1 _

theorem fsPixel_some {width height : ℕ} {resolve : Resolver}
    (hres : ∀ r g b, 3 ≤ (resolve r g b).length) (y x : ℕ) (st : List ℕ × List ℕ) :
    ∃ st', Dithering.fsPixel width height resolve y x st = some st' := by
  simp only [Dithering.fsPixel]
  rw [if_neg (by push_neg; exact hres _ _ _)]
  exact ⟨_, rfl⟩

theorem ordPixel_some {width : ℕ} {data : List ℕ} {nm : List (List ℚ)} {n : ℕ}
    {resolve : Resolver} (hres : ∀ r g b, 3 ≤ (resolve r g b).length) (y x : ℕ)
    (out : List ℕ) :
    ∃ out', Dithering.ordPixel width data nm n resolve y x out = some out' := by
  rw [ordPixel_eq, if_neg (by push_neg; exact hres _ _ _)]
  exact ⟨_, rfl⟩

theorem ordPixel_bounds {width : ℕ} {data : List ℕ} {nm : List (List ℚ)} {n : ℕ}
    {resolve : Resolver} {y x : ℕ} {out out' : List ℕ}
    (h : Dithering.ordPixel width data nm n resolve y x out = some out')
    (hdata : ∀ u ∈ data, u ≤ 255) (hout : ∀ u ∈ out, u ≤ 255) :
    ∀ u ∈ out', u ≤ 255 := by
  rw [ordPixel_eq] at h
  split at h
  · cases h
  · cases h
    refine mem_set_le (mem_set_le (mem_set_le (mem_set_le hout (toUint8Clamp_le _))
      (toUint8Clamp_le _)) (toUint8Clamp_le _)) ?_
    exact getD_le hdata _

/-! ### Claim C1 -/

/-- C1: In error-diffusion (`floydSteinberg`), pixels are visited in strict
row-major order (`y` outer ascending, `x` inner ascending); for each pixel
`(x, y)` the resolver is applied to the current (possibly perturbed) working
RGB values, the chosen color is written to the output at `(x, y)`, and the
per-channel quantization error (working value minus chosen value) is added to
the working buffer only at in-bounds neighbors with weights `7/16` at
`(x+1, y)`, `3/16` at `(x-1, y+1)`, `5/16` at `(x, y+1)` and `1/16` at
`(x+1, y+1)`; each such addition is rounded to the nearest integer and
clamped to `[0, 255]` as it is stored, and out-of-bounds neighbors receive no
error.  Stated as: the source transform coincides with `floydSteinbergSpec`,
the pass written from the claim's words. -/
theorem claimC1_rowMajor_errorDiffusion (img : ImageData) (resolve : Resolver) :
    Dithering.floydSteinberg img resolve = floydSteinbergSpec img resolve := by
  simp only [Dithering.floydSteinberg, floydSteinbergSpec]
  rw [nestedFold_eq_rowMajor img.width img.height
    (fun y x st => Dithering.fsPixel img.width img.height resolve y x st)
    (img.data, img.data)]
  have hpt : ∀ (st : List ℕ × List ℕ) (p : ℕ × ℕ), p ∈ rowMajorCoords img.width img.height →
      Dithering.fsPixel img.width img.height resolve p.2 p.1 st
        = fsSpecStep img.width img.height resolve p st := by
    intro st p hp
    obtain ⟨x, y⟩ := p
    rw [mem_rowMajorCoords] at hp
    exact (fsSpecStep_eq_fsPixel img.width img.height resolve hp.1 hp.2 st).symm
  rw [foldlM_congr_mem _ _ _ hpt (img.data, img.data)]

/-! ### Claim C9 -/

/-- C9: For all three transforms, for every valid input buffer and resolver,
the alpha channel of every output pixel equals the alpha channel of the
corresponding source pixel — alpha is copied through unchanged, unaffected by
the color math and the error distribution. -/
theorem claimC9_alpha_passthrough (img : ImageData) (resolve : Resolver)
    (hlen : img.data.length = img.width * img.height * 4) :
    (∀ out, Dithering.floydSteinberg img resolve = some out →
      ∀ j, j < img.width * img.height →
        out.data.getD (4 * j + 3) 0 = img.data.getD (4 * j + 3) 0) ∧
    (∀ out, Dithering.bayer img resolve = some out →
      ∀ j, j < img.width * img.height →
        out.data.getD (4 * j + 3) 0 = img.data.getD (4 * j + 3) 0) ∧
    (∀ out, Dithering.ordered img resolve = some out →
      ∀ j, j < img.width * img.height →
        out.data.getD (4 * j + 3) 0 = img.data.getD (4 * j + 3) 0) := by
  have hord : ∀ (matrix : List (List ℕ)) (n : ℕ) out,
      Dithering.orderedCore matrix n img resolve = some out →
      ∀ j, j < img.width * img.height →
        out.data.getD (4 * j + 3) 0 = img.data.getD (4 * j + 3) 0 := by
    intro matrix n out hout j hj
    have hw : 0 < img.width := by
      rcases Nat.eq_zero_or_pos img.width with h0 | h0
      · rw [h0] at hj
        simp at hj
      · exact h0
    have hx : j % img.width < img.width := Nat.mod_lt _ hw
    have hy : j / img.width < img.height := by
      rw [Nat.div_lt_iff_lt_mul hw]
      calc j < img.width * img.height := hj
        _ = img.height * img.width := Nat.mul_comm _ _
    have hsum : j / img.width * img.width + j % img.width = j := by
      rw [Nat.mul_comm]
      exact Nat.div_add_mod j img.width
    obtain ⟨-, -, -, -, halpha⟩ := orderedCore_getD matrix n img resolve out hlen hout hx hy
    rw [hsum] at halpha
    rw [show 4 * j + 3 = j * 4 + 3 by omega]
    exact halpha
  refine ⟨?_, fun out hout => hord _ _ out hout, fun out hout => hord _ _ out hout⟩
  intro out hout j _
  simp only [Dithering.floydSteinberg] at hout
  rw [nestedFold_eq_rowMajor img.width img.height
    (fun y x st => Dithering.fsPixel img.width img.height resolve y x st)
    (img.data, img.data)] at hout
  cases hfold : (rowMajorCoords img.width img.height).foldlM
      (fun st p => Dithering.fsPixel img.width img.height resolve p.2 p.1 st)
      (img.data, img.data) with
  | none => rw [hfold] at hout; cases hout
  | some st =>
    rw [hfold] at hout
    cases hout
    have hinv := foldlM_preserves _
      (fun st : List ℕ × List ℕ =>
        (∀ j, st.1.getD (4 * j + 3) 0 = img.data.getD (4 * j + 3) 0) ∧
        (∀ j, st.2.getD (4 * j + 3) 0 = img.data.getD (4 * j + 3) 0)) _
      (fun s a s' _ hP hstep => fsPixel_alpha hstep hP) _ _ hfold
      ⟨fun _ => rfl, fun _ => rfl⟩
    exact hinv.2 j

/-! ### Claim C10 -/

/-- C10: For every input buffer of length `width*height*4` (bytes in
`[0, 255]`) and every resolver all of whose results have at least 3 channel
entries, each of the three transforms succeeds and returns a buffer with the
same width and height, of length exactly `width*height*4`, in which every
value is an integer in `[0, 255]` — even when the resolver returns fractional
or out-of-range channel values, because each store rounds and clamps to the
byte range. -/
theorem claimC10_output_invariants (img : ImageData) (resolve : Resolver)
    (hlen : img.data.length = img.width * img.height * 4)
    (hbytes : ∀ u ∈ img.data, u ≤ 255)
    (hres : ∀ r g b, 3 ≤ (resolve r g b).length) :
    (∃ out, Dithering.floydSteinberg img resolve = some out ∧ out.width = img.width ∧
      out.height = img.height ∧ out.data.length = img.width * img.height * 4 ∧
      ∀ u ∈ out.data, u ≤ 255) ∧
    (∃ out, Dithering.bayer img resolve = some out ∧ out.width = img.width ∧
      out.height = img.height ∧ out.data.length = img.width * img.height * 4 ∧
      ∀ u ∈ out.data, u ≤ 255) ∧
    (∃ out, Dithering.ordered img resolve = some out ∧ out.width = img.width ∧
      out.height = img.height ∧ out.data.length = img.width * img.height * 4 ∧
      ∀ u ∈ out.data, u ≤ 255) := by
  have hord : ∀ (matrix : List (List ℕ)) (n : ℕ),
      ∃ out, Dithering.orderedCore matrix n img resolve = some out ∧
        out.width = img.width ∧ out.height = img.height ∧
        out.data.length = img.width * img.height * 4 ∧ ∀ u ∈ out.data, u ≤ 255 := by
    intro matrix n
    obtain ⟨stOut, hfold, hP⟩ := foldlM_total
      (Dithering.ordStep img.width img.data
        (matrix.map fun row => row.map fun (val : ℕ) => ((val : ℚ) + 1/2) / ((n : ℚ) * n) - 1/2)
        n resolve)
      (fun l => l.length = img.data.length ∧ ∀ u ∈ l, u ≤ 255)
      (List.range (img.height * img.width))
      (fun s a _ hP => by
        obtain ⟨s', hs'⟩ := ordPixel_some hres (a / img.width) (a % img.width) s
        exact ⟨s', hs', by rw [ordPixel_length hs']; exact hP.1,
          ordPixel_bounds hs' hbytes hP.2⟩)
      (List.replicate img.data.length 0)
      ⟨by simp, by intro u hu; rw [List.eq_of_mem_replicate hu]; omega⟩
    refine ⟨⟨img.width, img.height, stOut⟩, ?_, rfl, rfl, ?_, hP.2⟩
    · simp only [Dithering.orderedCore]
      rw [orderedLoop_eq_flat, hfold]
    · rw [hP.1, hlen]
  refine ⟨?_, hord _ _, hord _ _⟩
  obtain ⟨st, hfold, hP⟩ := foldlM_total
    (fun st (p : ℕ × ℕ) => Dithering.fsPixel img.width img.height resolve p.2 p.1 st)
    (fun st : List ℕ × List ℕ => st.1.length = img.data.length ∧
      st.2.length = img.data.length ∧ (∀ u ∈ st.1, u ≤ 255) ∧ ∀ u ∈ st.2, u ≤ 255)
    (rowMajorCoords img.width img.height)
    (fun s a _ hP => by
      obtain ⟨s', hs'⟩ := fsPixel_some hres a.2 a.1 s
      exact ⟨s', hs', fsPixel_bounds hs' hP⟩)
    (img.data, img.data)
    ⟨rfl, rfl, hbytes, hbytes⟩
  refine ⟨⟨img.width, img.height, st.2⟩, ?_, rfl, rfl, ?_, hP.2.2.2⟩
  · simp only [Dithering.floydSteinberg]
    rw [nestedFold_eq_rowMajor img.width img.height
      (fun y x st => Dithering.fsPixel img.width img.height resolve y x st)
      (img.data, img.data), hfold]
  · rw [hP.2.1, hlen]

/-! ### Claims C5 and C6 -/

theorem getD_map_getD (matrix : List (List ℕ)) (f : ℕ → ℚ) (i j : ℕ)
    (hi : i < matrix.length) (hj : j < (matrix.getD i []).length) :
    ((matrix.map fun row => row.map f).getD i []).getD j 0
      = f ((matrix.getD i []).getD j 0) := by
  have h1 : (matrix.map fun row => row.map f).getD i [] = (matrix.getD i []).map f := by
    rw [List.getD_eq_getElem?_getD, List.getD_eq_getElem?_getD, List.getElem?_map]
    cases hm : matrix[i]? with
    | none =>
      rw [List.getElem?_eq_getElem hi] at hm
      cases hm
    | some row => rfl
  rw [h1]
  generalize matrix.getD i [] = row at hj
  rw [List.getD_eq_getElem?_getD, List.getD_eq_getElem?_getD, List.getElem?_map]
  cases hm : row[j]? with
  | none =>
    rw [List.getElem?_eq_getElem hj] at hm
    cases hm
  | some v => rfl

theorem ordResolve_congr {width : ℕ} {data1 data2 : List ℕ} {nm : List (List ℚ)} {n : ℕ}
    {resolve : Resolver} {y x : ℕ}
    (h0 : data1.getD ((y * width + x) * 4) 0 = data2.getD ((y * width + x) * 4) 0)
    (h1 : data1.getD ((y * width + x) * 4 + 1) 0 = data2.getD ((y * width + x) * 4 + 1) 0)
    (h2 : data1.getD ((y * width + x) * 4 + 2) 0 = data2.getD ((y * width + x) * 4 + 2) 0) :
    Dithering.ordResolve width data1 nm n resolve y x
      = Dithering.ordResolve width data2 nm n resolve y x := by
  simp only [Dithering.ordResolve, h0, h1, h2]

/-- C5: For both ordered variants (`bayer` with an 8×8 matrix of values 0–63,
`ordered` with a 4×4 matrix of values 0–15), the output pixel at `(x, y)` is
computed as: `offset = ((M[y mod N][x mod N] + 0.5)/N² - 0.5) * 255`; each
RGB channel independently becomes `adjusted = clamp(original + offset, 0, 255)`;
the resolver is called on the adjusted channels and its result is written to
the output at `(x, y)` (each channel through the byte store). -/
theorem claimC5_ordered_formula :
    (Dithering.bayerMatrix.length = 8 ∧
      (∀ row ∈ Dithering.bayerMatrix, row.length = 8) ∧
      (∀ row ∈ Dithering.bayerMatrix, ∀ v ∈ row, v ≤ 63)) ∧
    (Dithering.orderedMatrix.length = 4 ∧
      (∀ row ∈ Dithering.orderedMatrix, row.length = 4) ∧
      (∀ row ∈ Dithering.orderedMatrix, ∀ v ∈ row, v ≤ 15)) ∧
    (∀ (img : ImageData) (resolve : Resolver) (out : ImageData) (x y : ℕ),
      img.data.length = img.width * img.height * 4 →
      Dithering.bayer img resolve = some out →
      x < img.width → y < img.height →
      ∀ c, c < 3 →
        out.data.getD ((y * img.width + x) * 4 + c) 0
          = toUint8Clamp ((resolve
              (min 255 (max 0 ((img.data.getD ((y * img.width + x) * 4) 0 : ℚ) + ((((Dithering.bayerMatrix.getD (y % 8) []).getD (x % 8) 0 : ℚ) + 0.5) / 8 ^ 2 - 0.5) * 255)))
              (min 255 (max 0 ((img.data.getD ((y * img.width + x) * 4 + 1) 0 : ℚ) + ((((Dithering.bayerMatrix.getD (y % 8) []).getD (x % 8) 0 : ℚ) + 0.5) / 8 ^ 2 - 0.5) * 255)))
              (min 255 (max 0 ((img.data.getD ((y * img.width + x) * 4 + 2) 0 : ℚ) + ((((Dithering.bayerMatrix.getD (y % 8) []).getD (x % 8) 0 : ℚ) + 0.5) / 8 ^ 2 - 0.5) * 255)))).getD c 0)) ∧
    (∀ (img : ImageData) (resolve : Resolver) (out : ImageData) (x y : ℕ),
      img.data.length = img.width * img.height * 4 →
      Dithering.ordered img resolve = some out →
      x < img.width → y < img.height →
      ∀ c, c < 3 →
        out.data.getD ((y * img.width + x) * 4 + c) 0
          = toUint8Clamp ((resolve
              (min 255 (max 0 ((img.data.getD ((y * img.width + x) * 4) 0 : ℚ) + ((((Dithering.orderedMatrix.getD (y % 4) []).getD (x % 4) 0 : ℚ) + 0.5) / 4 ^ 2 - 0.5) * 255)))
              (min 255 (max 0 ((img.data.getD ((y * img.width + x) * 4 + 1) 0 : ℚ) + ((((Dithering.orderedMatrix.getD (y % 4) []).getD (x % 4) 0 : ℚ) + 0.5) / 4 ^ 2 - 0.5) * 255)))
              (min 255 (max 0 ((img.data.getD ((y * img.width + x) * 4 + 2) 0 : ℚ) + ((((Dithering.orderedMatrix.getD (y % 4) []).getD (x % 4) 0 : ℚ) + 0.5) / 4 ^ 2 - 0.5) * 255)))).getD c 0)) := by
  refine ⟨⟨by decide, by decide, by decide⟩, ⟨by decide, by decide, by decide⟩, ?_, ?_⟩
  · intro img resolve out x y hlen hout hx hy c hc
    obtain ⟨-, -, -, hslots, -⟩ :=
      orderedCore_getD Dithering.bayerMatrix 8 img resolve out hlen hout hx hy
    rw [hslots c hc]
    have hm8 : y % 8 < Dithering.bayerMatrix.length := by
      rw [show Dithering.bayerMatrix.length = 8 by decide]
      exact Nat.mod_lt _ (by norm_num)
    have hr8 : x % 8 < (Dithering.bayerMatrix.getD (y % 8) []).length := by
      have hall : ∀ i, i < 8 → (Dithering.bayerMatrix.getD i []).length = 8 := by decide
      rw [hall (y % 8) (Nat.mod_lt _ (by norm_num))]
      exact Nat.mod_lt _ (by norm_num)
    have hlookup : ((Dithering.bayerMatrix.map fun row => row.map fun (val : ℕ) =>
        ((val : ℚ) + 1/2) / ((((8 : ℕ)) : ℚ) * ((8 : ℕ))) - 1/2).getD (y % 8) []).getD (x % 8) 0
        = (((Dithering.bayerMatrix.getD (y % 8) []).getD (x % 8) 0 : ℚ) + 0.5) / 8 ^ 2 - 0.5 := by
      rw [getD_map_getD Dithering.bayerMatrix _ (y % 8) (x % 8) hm8 hr8]
      norm_num
    simp only [Dithering.ordResolve, hlookup]
  · intro img resolve out x y hlen hout hx hy c hc
    obtain ⟨-, -, -, hslots, -⟩ :=
      orderedCore_getD Dithering.orderedMatrix 4 img resolve out hlen hout hx hy
    rw [hslots c hc]
    have hm4 : y % 4 < Dithering.orderedMatrix.length := by
      rw [show Dithering.orderedMatrix.length = 4 by decide]
      exact Nat.mod_lt _ (by norm_num)
    have hr4 : x % 4 < (Dithering.orderedMatrix.getD (y % 4) []).length := by
      have hall : ∀ i, i < 4 → (Dithering.orderedMatrix.getD i []).length = 4 := by decide
      rw [hall (y % 4) (Nat.mod_lt _ (by norm_num))]
      exact Nat.mod_lt _ (by norm_num)
    have hlookup : ((Dithering.orderedMatrix.map fun row => row.map fun (val : ℕ) =>
        ((val : ℚ) + 1/2) / ((((4 : ℕ)) : ℚ) * ((4 : ℕ))) - 1/2).getD (y % 4) []).getD (x % 4) 0
        = (((Dithering.orderedMatrix.getD (y % 4) []).getD (x % 4) 0 : ℚ) + 0.5) / 4 ^ 2 - 0.5 := by
      rw [getD_map_getD Dithering.orderedMatrix _ (y % 4) (x % 4) hm4 hr4]
      norm_num
    simp only [Dithering.ordResolve, hlookup]

/-- C6: For the ordered variants (`bayer` and `ordered`), each output pixel
depends only on its own source pixel and its own coordinates: for every two
input buffers of the same dimensions that agree on the RGBA values of pixel
`(x, y)`, and every resolver, the two outputs agree on pixel `(x, y)` — so
permuting the pixel visitation order cannot change the output. -/
theorem claimC6_ordered_pixel_locality (img1 img2 : ImageData) (resolve : Resolver)
    (x y : ℕ)
    (hw : img1.width = img2.width) (hh : img1.height = img2.height)
    (hlen1 : img1.data.length = img1.width * img1.height * 4)
    (hlen2 : img2.data.length = img2.width * img2.height * 4)
    (hx : x < img1.width) (hy : y < img1.height)
    (hagree : ∀ c, c < 4 → img1.data.getD ((y * img1.width + x) * 4 + c) 0
        = img2.data.getD ((y * img1.width + x) * 4 + c) 0) :
    (∀ out1 out2, Dithering.bayer img1 resolve = some out1 →
      Dithering.bayer img2 resolve = some out2 →
      ∀ c, c < 4 → out1.data.getD ((y * img1.width + x) * 4 + c) 0
        = out2.data.getD ((y * img1.width + x) * 4 + c) 0) ∧
    (∀ out1 out2, Dithering.ordered img1 resolve = some out1 →
      Dithering.ordered img2 resolve = some out2 →
      ∀ c, c < 4 → out1.data.getD ((y * img1.width + x) * 4 + c) 0
        = out2.data.getD ((y * img1.width + x) * 4 + c) 0) := by
  have hcore : ∀ (matrix : List (List ℕ)) (n : ℕ) out1 out2,
      Dithering.orderedCore matrix n img1 resolve = some out1 →
      Dithering.orderedCore matrix n img2 resolve = some out2 →
      ∀ c, c < 4 → out1.data.getD ((y * img1.width + x) * 4 + c) 0
        = out2.data.getD ((y * img1.width + x) * 4 + c) 0 := by
    intro matrix n out1 out2 h1 h2 c hc
    obtain ⟨-, -, -, hslots1, halpha1⟩ :=
      orderedCore_getD matrix n img1 resolve out1 hlen1 h1 hx hy
    obtain ⟨-, -, -, hslots2, halpha2⟩ :=
      orderedCore_getD matrix n img2 resolve out2 hlen2 h2 (hw ▸ hx) (hh ▸ hy)
    rw [← hw] at hslots2 halpha2
    have hres_eq : Dithering.ordResolve img1.width img1.data
        (matrix.map fun row => row.map fun (val : ℕ) =>
          ((val : ℚ) + 1/2) / ((n : ℚ) * n) - 1/2) n resolve y x
        = Dithering.ordResolve img1.width img2.data
          (matrix.map fun row => row.map fun (val : ℕ) =>
            ((val : ℚ) + 1/2) / ((n : ℚ) * n) - 1/2) n resolve y x :=
      ordResolve_congr (hagree 0 (by omega)) (hagree 1 (by omega)) (hagree 2 (by omega))
    rcases Nat.lt_or_ge c 3 with hc3 | hc3
    · rw [hslots1 c hc3, hslots2 c hc3, hres_eq]
    · have hc3' : c = 3 := by omega
      subst hc3'
      rw [halpha1, halpha2]
      exact hagree 3 (by omega)
  exact ⟨hcore Dithering.bayerMatrix 8, hcore Dithering.orderedMatrix 4⟩

/-! ### Structure of the nearest-color scan -/

/-- The loop body of `findClosestColor` (one `for (const color of palette)`
iteration), as a named function for the lemmas below. -/
def fccStep (r g b : ℚ) (acc : Option ℚ × Color) (color : Color) : Option ℚ × Color :=
  if color.length < 3 then acc
  else
    let dr := r - color.getD 0 0
    let dg := g - color.getD 1 0
    let db := b - color.getD 2 0
    let distance := dr * dr + dg * dg + db * db
    match acc.1 with
    | none => (some distance, color)
    | some minDistance =>
      if distance < minDistance then (some distance, color) else acc

theorem findClosestColor_eq (r g b : ℚ) (palette : List Color) :
    ColorPalettes.findClosestColor r g b palette
      = if palette.isEmpty then [0, 0, 0]
        else (palette.foldl (fccStep r g b) (none, palette.headD [])).2 := rfl

/-- The squared Euclidean RGB distance of the scan. -/
def distSq (r g b : ℚ) (color : Color) : ℚ :=
  (r - color.getD 0 0) * (r - color.getD 0 0) + (g - color.getD 1 0) * (g - color.getD 1 0) +
    (b - color.getD 2 0) * (b - color.getD 2 0)

theorem fccStep_eq (r g b : ℚ) (acc : Option ℚ × Color) (color : Color) :
    fccStep r g b acc color
      = if color.length < 3 then acc
        else match acc.1 with
          | none => (some (distSq r g b color), color)
          | some minDistance =>
            if distSq r g b color < minDistance then (some (distSq r g b color), color)
            else acc := rfl

/-- One step of the scan as the claim words it: keep the first entry with at
least 3 channels achieving the strictly smallest distance so far. -/
def nearestStep (r g b : ℚ) (best : Option Color) (color : Color) : Option Color :=
  if 3 ≤ color.length then
    match best with
    | none => some color
    | some best' => if distSq r g b color < distSq r g b best' then some color else best
  else best

/-- Modelled on the claim's words: scan the full palette and return the
first well-formed entry (at least 3 channels) achieving the strictly
smallest squared Euclidean distance — `none` when no entry is usable. -/
def nearestColorSpec (r g b : ℚ) (palette : List Color) : Option Color :=
  palette.foldl (nearestStep r g b) none

theorem fcc_rel (r g b : ℚ) : ∀ (l : List Color) (acc : Option ℚ × Color) (best : Option Color),
    (match best with
     | none => acc.1 = none
     | some c => acc.1 = some (distSq r g b c) ∧ acc.2 = c) →
    (match l.foldl (nearestStep r g b) best with
     | none => (l.foldl (fccStep r g b) acc).1 = none
     | some c => (l.foldl (fccStep r g b) acc).1 = some (distSq r g b c) ∧
        (l.foldl (fccStep r g b) acc).2 = c) := by
  intro l
  induction l with
  | nil => intro acc best h; exact h
  | cons a t ih =>
    intro acc best h
    rw [List.foldl_cons, List.foldl_cons]
    by_cases hlen : a.length < 3
    · have e1 : fccStep r g b acc a = acc := by rw [fccStep_eq, if_pos hlen]
      have e2 : nearestStep r g b best a = best := by
        simp only [nearestStep]
        rw [if_neg (by omega)]
      rw [e1, e2]
      exact ih acc best h
    · cases best with
      | none =>
        have e2 : nearestStep r g b none a = some a := by
          simp only [nearestStep]
          rw [if_pos (by omega)]
        have e1 : fccStep r g b acc a = (some (distSq r g b a), a) := by
          simp only [fccStep_eq, if_neg hlen, h]
        rw [e1, e2]
        exact ih _ _ ⟨rfl, rfl⟩
      | some best' =>
        obtain ⟨h1, h2⟩ := h
        by_cases hlt : distSq r g b a < distSq r g b best'
        · have e2 : nearestStep r g b (some best') a = some a := by
            simp only [nearestStep]
            rw [if_pos (by omega), if_pos hlt]
          have e1 : fccStep r g b acc a = (some (distSq r g b a), a) := by
            simp only [fccStep_eq, if_neg hlen, h1, if_pos hlt]
          rw [e1, e2]
          exact ih _ _ ⟨rfl, rfl⟩
        · have e2 : nearestStep r g b (some best') a = some best' := by
            simp only [nearestStep]
            rw [if_pos (by omega), if_neg hlt]
          have e1 : fccStep r g b acc a = acc := by
            simp only [fccStep_eq, if_neg hlen, h1, if_neg hlt]
          rw [e1, e2]
          exact ih _ _ ⟨h1, h2⟩

theorem nearestSpec_isSome (r g b : ℚ) : ∀ (l : List Color) (best : Option Color),
    ((∃ c ∈ l, 3 ≤ c.length) ∨ best.isSome) →
    (l.foldl (nearestStep r g b) best).isSome := by
  intro l
  induction l with
  | nil =>
    intro best h
    rcases h with ⟨c, hc, -⟩ | h
    · cases hc
    · exact h
  | cons a t ih =>
    intro best h
    rw [List.foldl_cons]
    apply ih
    by_cases hlen : 3 ≤ a.length
    · right
      simp only [nearestStep]
      rw [if_pos hlen]
      cases best with
      | none => rfl
      | some best' =>
        show (if distSq r g b a < distSq r g b best' then some a else some best').isSome = true
        split <;> rfl
    · have e : nearestStep r g b best a = best := by
        simp only [nearestStep]
        rw [if_neg hlen]
      rw [e]
      rcases h with ⟨c, hc, hcl⟩ | hs
      · rcases List.mem_cons.mp hc with rfl | hct
        · exact absurd hcl hlen
        · exact Or.inl ⟨c, hct, hcl⟩
      · exact Or.inr hs

/-! ### Claim C7 -/

/-- C7: For every `(r, g, b)` and every palette containing at least one
well-formed entry (at least 3 channels), `findClosestColor` scans the full
palette and returns the first well-formed entry achieving the strictly
smallest squared Euclidean distance `dr² + dg² + db²` — on ties the earliest
entry wins.  `nearestColorSpec` is that scan, written from the claim's
words; the theorem says the source function returns exactly its answer. -/
theorem claimC7_first_strict_argmin (r g b : ℚ) (palette : List Color)
    (hwf : ∃ c ∈ palette, 3 ≤ c.length) :
    ∃ col, nearestColorSpec r g b palette = some col ∧
      ColorPalettes.findClosestColor r g b palette = col := by
  have hsome := nearestSpec_isSome r g b palette none (Or.inl hwf)
  rw [show palette.foldl (nearestStep r g b) none = nearestColorSpec r g b palette from rfl]
    at hsome
  obtain ⟨col, hcol⟩ := Option.isSome_iff_exists.mp hsome
  refine ⟨col, hcol, ?_⟩
  have hne : ¬ palette.isEmpty := by
    obtain ⟨c, hc, -⟩ := hwf
    cases palette with
    | nil => cases hc
    | cons a t => simp
  rw [findClosestColor_eq, if_neg hne]
  have hrel := fcc_rel r g b palette (none, palette.headD []) none rfl
  rw [show palette.foldl (nearestStep r g b) none = nearestColorSpec r g b palette from rfl,
    hcol] at hrel
  exact hrel.2

/-! ### Claim C4 -/

/-- C4 counterexample: a palette whose only entry is malformed.  The claim
says the function then returns the black fallback `[0, 0, 0]`; in fact the
scan skips the entry and returns the initial `closestColor = palette[0]`,
i.e. the malformed entry `[5]` itself. -/
theorem claimC4_counterexample :
    ColorPalettes.findClosestColor 0 0 0 [[5]] ≠ [0, 0, 0] := by
  rw [findClosestColor_eq]
  rw [if_neg (by simp)]
  rw [show ([[5]] : List Color).foldl (fccStep 0 0 0) (none, ([[5]] : List Color).headD [])
      = (none, [5]) from by
    rw [List.foldl_cons, List.foldl_nil]
    rw [fccStep_eq, if_pos (by simp)]
    rfl]
  simp

theorem fcc_foldl_skip (r g b : ℚ) : ∀ (l : List Color) (acc : Option ℚ × Color),
    (∀ c ∈ l, c.length < 3) → l.foldl (fccStep r g b) acc = acc := by
  intro l
  induction l with
  | nil => intro acc _; rfl
  | cons a t ih =>
    intro acc h
    rw [List.foldl_cons, show fccStep r g b acc a = acc from by
      rw [fccStep_eq, if_pos (h a (List.mem_cons_self a t))]]
    exact ih acc fun c hc => h c (List.mem_cons_of_mem a hc)

theorem fcc_foldl_indep (r g b : ℚ) : ∀ (l : List Color) (d₁ d₂ : Color),
    (∃ u ∈ l, 3 ≤ u.length) →
    l.foldl (fccStep r g b) (none, d₁) = l.foldl (fccStep r g b) (none, d₂) := by
  intro l
  induction l with
  | nil =>
    intro d₁ d₂ h
    obtain ⟨u, hu, -⟩ := h
    cases hu
  | cons a t ih =>
    intro d₁ d₂ h
    rw [List.foldl_cons, List.foldl_cons]
    by_cases hlen : a.length < 3
    · rw [show fccStep r g b (none, d₁) a = (none, d₁) from by rw [fccStep_eq, if_pos hlen],
        show fccStep r g b (none, d₂) a = (none, d₂) from by rw [fccStep_eq, if_pos hlen]]
      refine ih d₁ d₂ ?_
      obtain ⟨u, hu, hul⟩ := h
      rcases List.mem_cons.mp hu with rfl | hut
      · omega
      · exact ⟨u, hut, hul⟩
    · rw [show fccStep r g b (none, d₁) a = (some (distSq r g b a), a) from by
        simp only [fccStep_eq, if_neg hlen],
        show fccStep r g b (none, d₂) a = (some (distSq r g b a), a) from by
        simp only [fccStep_eq, if_neg hlen]]

/-- C4 amended: entries with fewer than 3 channels are skipped without
failing — inserting such an entry anywhere in a palette that still has a
usable entry does not change the result; but when every entry of a
(non-empty) palette is unusable, the function returns the palette's first
entry (whatever it is), not the black fallback — black is only the fallback
for a missing or empty palette. -/
theorem claimC4_amended_skip_and_fallback :
    (∀ (r g b : ℚ) (palette : List Color), palette ≠ [] →
      (∀ c ∈ palette, c.length < 3) →
      ColorPalettes.findClosestColor r g b palette = palette.headD []) ∧
    (∀ (r g b : ℚ) (p₁ p₂ : List Color) (c : Color), c.length < 3 →
      (∃ u ∈ p₁ ++ p₂, 3 ≤ u.length) →
      ColorPalettes.findClosestColor r g b (p₁ ++ c :: p₂)
        = ColorPalettes.findClosestColor r g b (p₁ ++ p₂)) := by
  constructor
  · intro r g b palette hne hall
    rw [findClosestColor_eq, if_neg (by cases palette with
      | nil => exact absurd rfl hne
      | cons a t => simp)]
    rw [fcc_foldl_skip r g b palette _ hall]
  · intro r g b p₁ p₂ c hc hex
    have hne1 : ¬ (p₁ ++ c :: p₂).isEmpty := by simp
    have hne2 : ¬ (p₁ ++ p₂).isEmpty := by
      obtain ⟨u, hu, -⟩ := hex
      cases hpp : p₁ ++ p₂ with
      | nil => rw [hpp] at hu; cases hu
      | cons a t => simp
    rw [findClosestColor_eq, findClosestColor_eq, if_neg hne1, if_neg hne2]
    have hfold : (p₁ ++ c :: p₂).foldl (fccStep r g b) (none, (p₁ ++ c :: p₂).headD [])
        = (p₁ ++ p₂).foldl (fccStep r g b) (none, (p₁ ++ c :: p₂).headD []) := by
      rw [List.foldl_append, List.foldl_append, List.foldl_cons]
      rw [show fccStep r g b (p₁.foldl (fccStep r g b) (none, (p₁ ++ c :: p₂).headD [])) c
          = p₁.foldl (fccStep r g b) (none, (p₁ ++ c :: p₂).headD []) from by
        rw [fccStep_eq, if_pos hc]]
    rw [hfold, fcc_foldl_indep r g b (p₁ ++ p₂) _ _ hex]

/-! ### Claim C8 -/

/-- C8: `findClosestMonochromeColor` is pure and total: it computes the
luminance `0.299 r + 0.587 g + 0.114 b` (in the code's binary64 arithmetic,
`jsLuminance`), substitutes 128 when the threshold is invalid, and returns
black when `luminance < threshold` and white otherwise — so its result is
always exactly black or white; in particular `(200,200,200, 128) ↦ white`
and `(50,50,50, 128) ↦ black`. -/
theorem claimC8_monochrome_total :
    (∀ (r g b : ℚ) (threshold : Option ℚ),
      ColorPalettes.findClosestMonochromeColor r g b threshold = [0, 0, 0] ∨
      ColorPalettes.findClosestMonochromeColor r g b threshold = [255, 255, 255]) ∧
    (∀ r g b t : ℚ, ColorPalettes.findClosestMonochromeColor r g b (some t)
      = if jsLuminance r g b < t then [0, 0, 0] else [255, 255, 255]) ∧
    (∀ r g b : ℚ, ColorPalettes.findClosestMonochromeColor r g b none
      = if jsLuminance r g b < 128 then [0, 0, 0] else [255, 255, 255]) ∧
    ColorPalettes.findClosestMonochromeColor 200 200 200 (some 128) = [255, 255, 255] ∧
    ColorPalettes.findClosestMonochromeColor 50 50 50 (some 128) = [0, 0, 0] := by
  refine ⟨?_, fun r g b t => rfl, fun r g b => rfl, ?_, ?_⟩
  · intro r g b threshold
    simp only [ColorPalettes.findClosestMonochromeColor]
    split
    · exact Or.inl rfl
    · exact Or.inr rfl
  · simp only [ColorPalettes.findClosestMonochromeColor, jsLuminance_200]
    rw [if_neg (by norm_num)]
  · simp only [ColorPalettes.findClosestMonochromeColor, jsLuminance_50]
    rw [if_pos (by norm_num)]

/-! ### Byte-store evaluations at the concrete values of the worked run -/

theorem toUint8Clamp_eval_down (q : ℚ) (f : ℕ) (h0 : 0 < q) (h255 : q < 255)
    (h1 : (f : ℚ) ≤ q) (h2 : q < (f : ℚ) + 1/2) : toUint8Clamp q = f := by
  refine toUint8Clamp_mid (by linarith) (by linarith) ?_
  exact (roundHalfEven_eq_down (by push_cast; linarith) (by push_cast; linarith) :
    roundHalfEven q = ((f : ℕ) : ℤ))

theorem toUint8Clamp_eval_up (q : ℚ) (f : ℕ) (h0 : 0 < q) (h255 : q < 255)
    (h1 : (f : ℚ) - 1/2 < q) (h2 : q < (f : ℚ)) : toUint8Clamp q = f := by
  refine toUint8Clamp_mid (by linarith) (by linarith) ?_
  have hf1 : 1 ≤ f := by
    by_contra hf
    push_neg at hf
    interval_cases f
    · simp at h2
      linarith
  have h3 : roundHalfEven q = ((f : ℤ) - 1) + 1 :=
    roundHalfEven_eq_up (by push_cast; linarith) (by push_cast; linarith)
  rw [h3]
  omega

theorem u8c_0 : toUint8Clamp (0 : ℚ) = 0 := toUint8Clamp_of_nonpos le_rfl

theorem u8c_255 : toUint8Clamp (255 : ℚ) = 255 := toUint8Clamp_of_ge le_rfl

theorem u8c_136 : toUint8Clamp (136 : ℚ) = 136 :=
  toUint8Clamp_eval_down _ _ (by norm_num) (by norm_num) (by norm_num) (by norm_num)

theorem u8c_168 : toUint8Clamp (168 : ℚ) = 168 :=
  toUint8Clamp_eval_down _ _ (by norm_num) (by norm_num) (by norm_num) (by norm_num)

theorem u8c_184 : toUint8Clamp (184 : ℚ) = 184 :=
  toUint8Clamp_eval_down _ _ (by norm_num) (by norm_num) (by norm_num) (by norm_num)

theorem u8c_2475_16 : toUint8Clamp (2475/16 : ℚ) = 155 :=
  toUint8Clamp_eval_up _ _ (by norm_num) (by norm_num) (by norm_num) (by norm_num)

theorem u8c_1821_16 : toUint8Clamp (1821/16 : ℚ) = 114 :=
  toUint8Clamp_eval_up _ _ (by norm_num) (by norm_num) (by norm_num) (by norm_num)

theorem u8c_281_4 : toUint8Clamp (281/4 : ℚ) = 70 :=
  toUint8Clamp_eval_down _ _ (by norm_num) (by norm_num) (by norm_num) (by norm_num)

/-- The 2×2 uniform-gray image of the spec's worked scenario: every pixel
`(128, 128, 128, 255)`. -/
def gray2x2 : ImageData := ⟨2, 2, [128, 128, 128, 255, 128, 128, 128, 255,
  128, 128, 128, 255, 128, 128, 128, 255]⟩

theorem gray2x2_step00 :
    Dithering.fsPixel 2 2 (monochromeResolver (some 128)) 0 0
      ([128, 128, 128, 255, 128, 128, 128, 255, 128, 128, 128, 255, 128, 128, 128, 255],
       [128, 128, 128, 255, 128, 128, 128, 255, 128, 128, 128, 255, 128, 128, 128, 255])
    = some ([128, 128, 128, 255, 184, 184, 184, 255, 168, 168, 168, 255, 136, 136, 136, 255],
       [0, 0, 0, 255, 128, 128, 128, 255, 128, 128, 128, 255, 128, 128, 128, 255]) := by
  norm_num [Dithering.fsPixel, addErr3, addErr, monochromeResolver_gray128,
    u8c_0, u8c_184, u8c_168, u8c_136]

theorem gray2x2_step10 :
    Dithering.fsPixel 2 2 (monochromeResolver (some 128)) 0 1
      ([128, 128, 128, 255, 184, 184, 184, 255, 168, 168, 168, 255, 136, 136, 136, 255],
       [0, 0, 0, 255, 128, 128, 128, 255, 128, 128, 128, 255, 128, 128, 128, 255])
    = some ([128, 128, 128, 255, 184, 184, 184, 255, 155, 155, 155, 255, 114, 114, 114, 255],
       [0, 0, 0, 255, 255, 255, 255, 255, 128, 128, 128, 255, 128, 128, 128, 255]) := by
  norm_num [Dithering.fsPixel, addErr3, addErr, monochromeResolver_gray184,
    u8c_255, u8c_2475_16, u8c_1821_16]

theorem gray2x2_step01 :
    Dithering.fsPixel 2 2 (monochromeResolver (some 128)) 1 0
      ([128, 128, 128, 255, 184, 184, 184, 255, 155, 155, 155, 255, 114, 114, 114, 255],
       [0, 0, 0, 255, 255, 255, 255, 255, 128, 128, 128, 255, 128, 128, 128, 255])
    = some ([128, 128, 128, 255, 184, 184, 184, 255, 155, 155, 155, 255, 70, 70, 70, 255],
       [0, 0, 0, 255, 255, 255, 255, 255, 255, 255, 255, 255, 128, 128, 128, 255]) := by
  norm_num [Dithering.fsPixel, addErr3, addErr, monochromeResolver_gray155,
    u8c_255, u8c_281_4]

theorem gray2x2_step11 :
    Dithering.fsPixel 2 2 (monochromeResolver (some 128)) 1 1
      ([128, 128, 128, 255, 184, 184, 184, 255, 155, 155, 155, 255, 70, 70, 70, 255],
       [0, 0, 0, 255, 255, 255, 255, 255, 255, 255, 255, 255, 128, 128, 128, 255])
    = some ([128, 128, 128, 255, 184, 184, 184, 255, 155, 155, 155, 255, 70, 70, 70, 255],
       [0, 0, 0, 255, 255, 255, 255, 255, 255, 255, 255, 255, 0, 0, 0, 255]) := by
  norm_num [Dithering.fsPixel, addErr3, addErr, monochromeResolver_gray70, u8c_0]

theorem gray2x2_run :
    Dithering.floydSteinberg gray2x2 (monochromeResolver (some 128))
      = some ⟨2, 2, [0, 0, 0, 255, 255, 255, 255, 255,
          255, 255, 255, 255, 0, 0, 0, 255]⟩ := by
  simp only [Dithering.floydSteinberg, gray2x2, show List.range 2 = [0, 1] from by decide,
    List.foldlM_cons, List.foldlM_nil, Option.bind_eq_bind, Option.pure_def,
    gray2x2_step00, Option.some_bind, gray2x2_step10, gray2x2_step01, gray2x2_step11]

/-! ### Claim C2 -/

/-- C2 counterexample: on the 2×2 uniform gray `(128,128,128,255)` image
with the monochrome resolver at threshold 128, the claim predicts pixel
`(0, 0)` is white — but the code chooses black there (the binary64 luminance
of `(128,128,128)` evaluates to `9007199254740991/2^46 ≈ 127.99999999999999`,
strictly below the threshold). -/
theorem claimC2_counterexample :
    ¬ ∃ out, Dithering.floydSteinberg gray2x2 (monochromeResolver (some 128)) = some out ∧
      out.data.getD 0 0 = 255 ∧ out.data.getD 1 0 = 255 ∧ out.data.getD 2 0 = 255 := by
  rintro ⟨out, heq, h0, -, -⟩
  rw [gray2x2_run] at heq
  cases heq
  simp at h0

/-- C2 amended: on the 2×2 uniform gray image the top row is
`[black, white]` (and by symmetry of the diffused error the bottom row is
`[white, black]`): in the code's binary64 arithmetic the luminance of
`(128,128,128)` is just below 128, so `(0, 0)` resolves to black with error
`+128` per channel; the right neighbor's working value becomes
`128 + round(128 * 7/16) = 184`, whose luminance is at least 128, so
`(1, 0)` resolves to white. -/
theorem claimC2_amended_top_row_black_white :
    Dithering.floydSteinberg gray2x2 (monochromeResolver (some 128))
      = some ⟨2, 2, [0, 0, 0, 255, 255, 255, 255, 255,
          255, 255, 255, 255, 0, 0, 0, 255]⟩ ∧
    jsLuminance 128 128 128 < 128 ∧
    toUint8Clamp (128 + 128 * (7/16)) = 184 ∧
    128 ≤ jsLuminance 184 184 184 := by
  refine ⟨gray2x2_run, ?_, ?_, ?_⟩
  · rw [jsLuminance_128]
    norm_num
  · norm_num [u8c_184]
  · rw [jsLuminance_184]
    norm_num

/-! ### Claim C3 -/

theorem u8c_300 : toUint8Clamp (300 : ℚ) = 255 := toUint8Clamp_of_ge (by norm_num)

theorem fs1x1_run :
    Dithering.floydSteinberg ⟨1, 1, [10, 20, 30, 255]⟩ (fun _ _ _ => [300, 0, 0])
      = some ⟨1, 1, [255, 0, 0, 255]⟩ := by
  norm_num [Dithering.floydSteinberg, Dithering.fsPixel,
    show List.range 1 = [0] from by decide, u8c_300, u8c_0]

theorem bayer1x1_run :
    Dithering.bayer ⟨1, 1, [10, 20, 30, 255]⟩ (fun _ _ _ => [300, 0, 0])
      = some ⟨1, 1, [255, 0, 0, 255]⟩ := by
  norm_num [Dithering.bayer, Dithering.orderedCore, Dithering.ordPixel,
    show List.range 1 = [0] from by decide, u8c_300, u8c_0]
  decide

theorem ordered1x1_run :
    Dithering.ordered ⟨1, 1, [10, 20, 30, 255]⟩ (fun _ _ _ => [300, 0, 0])
      = some ⟨1, 1, [255, 0, 0, 255]⟩ := by
  norm_num [Dithering.ordered, Dithering.orderedCore, Dithering.ordPixel,
    show List.range 1 = [0] from by decide, u8c_300, u8c_0]
  decide

/-- C3 counterexample: a resolver answer that is not "exactly 3 channel
values each in range [0,255]" — here `[300, 0, 0]`, with 300 out of range —
does NOT abort any of the three transforms: the code only checks
`closestColor.length < 3`, accepts the out-of-range value and clamps it on
store (the red channel of the only pixel becomes 255). -/
theorem claimC3_counterexample :
    Dithering.floydSteinberg ⟨1, 1, [10, 20, 30, 255]⟩ (fun _ _ _ => [300, 0, 0])
      = some ⟨1, 1, [255, 0, 0, 255]⟩ ∧
    Dithering.bayer ⟨1, 1, [10, 20, 30, 255]⟩ (fun _ _ _ => [300, 0, 0])
      = some ⟨1, 1, [255, 0, 0, 255]⟩ ∧
    Dithering.ordered ⟨1, 1, [10, 20, 30, 255]⟩ (fun _ _ _ => [300, 0, 0])
      = some ⟨1, 1, [255, 0, 0, 255]⟩ :=
  ⟨fs1x1_run, bayer1x1_run, ordered1x1_run⟩

/-- C3 amended: the abort condition the code actually implements is
`closestColor.length < 3` — a resolver answer with fewer than 3 channel
values aborts the whole pass with an error (`none`: the caller observes only
the thrown error, never a partial buffer), while any answer with at least 3
channels is accepted regardless of the channel values, which are clamped on
store.  Proved: if every resolver answer is short, each transform on a
non-empty image returns the error outcome; if every answer has at least 3
channels, each transform returns a completed buffer. -/
theorem claimC3_amended_short_answer_aborts :
    (∀ (img : ImageData) (resolve : Resolver),
      0 < img.width → 0 < img.height →
      (∀ r g b, (resolve r g b).length < 3) →
      Dithering.floydSteinberg img resolve = none ∧
      Dithering.bayer img resolve = none ∧
      Dithering.ordered img resolve = none) ∧
    (∀ (img : ImageData) (resolve : Resolver),
      (∀ r g b, 3 ≤ (resolve r g b).length) →
      (∃ out, Dithering.floydSteinberg img resolve = some out) ∧
      (∃ out, Dithering.bayer img resolve = some out) ∧
      (∃ out, Dithering.ordered img resolve = some out)) := by
  constructor
  · intro img resolve hw hh hshort
    have hfs : Dithering.fsPixel img.width img.height resolve 0 0 (img.data, img.data)
        = none := by
      simp only [Dithering.fsPixel]
      rw [if_pos (hshort _ _ _)]
    have hord : ∀ (matrix : List (List ℕ)) (n : ℕ),
        Dithering.orderedCore matrix n img resolve = none := by
      intro matrix n
      have hop : Dithering.ordPixel img.width img.data
          (matrix.map fun row => row.map fun (val : ℕ) =>
            ((val : ℚ) + 1/2) / ((n : ℚ) * n) - 1/2) n resolve 0 0
          (List.replicate img.data.length 0) = none := by
        rw [ordPixel_eq, if_pos (show (Dithering.ordResolve img.width img.data
          (matrix.map fun row => row.map fun (val : ℕ) =>
            ((val : ℚ) + 1/2) / ((n : ℚ) * n) - 1/2) n resolve 0 0).length < 3
          from hshort _ _ _)]
      simp only [Dithering.orderedCore]
      rw [range_split hh, List.range_zero, List.nil_append, List.foldlM_cons]
      rw [range_split hw, List.range_zero, List.nil_append, List.foldlM_cons]
      rw [hop]
      rfl
    refine ⟨?_, hord _ _, hord _ _⟩
    simp only [Dithering.floydSteinberg]
    rw [range_split hh, List.range_zero, List.nil_append, List.foldlM_cons]
    rw [range_split hw, List.range_zero, List.nil_append, List.foldlM_cons]
    rw [hfs]
    rfl
  · intro img resolve hres
    have hord : ∀ (matrix : List (List ℕ)) (n : ℕ),
        ∃ out, Dithering.orderedCore matrix n img resolve = some out := by
      intro matrix n
      obtain ⟨stOut, hfold, -⟩ := foldlM_total
        (Dithering.ordStep img.width img.data
          (matrix.map fun row => row.map fun (val : ℕ) =>
            ((val : ℚ) + 1/2) / ((n : ℚ) * n) - 1/2) n resolve)
        (fun _ => True)
        (List.range (img.height * img.width))
        (fun s a _ _ => by
          obtain ⟨s', hs'⟩ := ordPixel_some hres (a / img.width) (a % img.width) s
          exact ⟨s', hs', trivial⟩)
        (List.replicate img.data.length 0) trivial
      refine ⟨⟨img.width, img.height, stOut⟩, ?_⟩
      simp only [Dithering.orderedCore]
      rw [orderedLoop_eq_flat, hfold]
    refine ⟨?_, hord _ _, hord _ _⟩
    obtain ⟨st, hfold, -⟩ := foldlM_total
      (fun st (p : ℕ × ℕ) => Dithering.fsPixel img.width img.height resolve p.2 p.1 st)
      (fun _ => True)
      (rowMajorCoords img.width img.height)
      (fun s a _ _ => by
        obtain ⟨s', hs'⟩ := fsPixel_some hres a.2 a.1 s
        exact ⟨s', hs', trivial⟩)
      (img.data, img.data) trivial
    refine ⟨⟨img.width, img.height, st.2⟩, ?_⟩
    simp only [Dithering.floydSteinberg]
    rw [nestedFold_eq_rowMajor img.width img.height
      (fun y x st => Dithering.fsPixel img.width img.height resolve y x st)
      (img.data, img.data), hfold]

/-! ### Witnesses -/

theorem claimC3_amended_short_answer_aborts_witness :
    ([] : Color).length < 3 ∧
    Dithering.floydSteinberg ⟨1, 1, [10, 20, 30, 255]⟩ (fun _ _ _ => ([] : Color)) = none ∧
    Dithering.bayer ⟨1, 1, [10, 20, 30, 255]⟩ (fun _ _ _ => ([] : Color)) = none ∧
    Dithering.ordered ⟨1, 1, [10, 20, 30, 255]⟩ (fun _ _ _ => ([] : Color)) = none ∧
    Dithering.floydSteinberg ⟨1, 1, [10, 20, 30, 255]⟩ (fun _ _ _ => [300, 0, 0]) ≠ none ∧
    Dithering.bayer ⟨1, 1, [10, 20, 30, 255]⟩ (fun _ _ _ => [300, 0, 0]) ≠ none ∧
    Dithering.ordered ⟨1, 1, [10, 20, 30, 255]⟩ (fun _ _ _ => [300, 0, 0]) ≠ none := by
  obtain ⟨h1, h2, h3⟩ := claimC3_amended_short_answer_aborts.1 ⟨1, 1, [10, 20, 30, 255]⟩
    (fun _ _ _ => ([] : Color)) (by decide) (by decide)
    (fun _ _ _ => (by decide : ([] : Color).length < 3))
  obtain ⟨⟨o1, ho1⟩, ⟨o2, ho2⟩, ⟨o3, ho3⟩⟩ :=
    claimC3_amended_short_answer_aborts.2 ⟨1, 1, [10, 20, 30, 255]⟩
      (fun _ _ _ => [300, 0, 0])
      (fun _ _ _ => (by decide : 3 ≤ ([300, 0, 0] : Color).length))
  refine ⟨by decide, h1, h2, h3, ?_, ?_, ?_⟩
  · rw [ho1]
    exact Option.some_ne_none _
  · rw [ho2]
    exact Option.some_ne_none _
  · rw [ho3]
    exact Option.some_ne_none _

theorem claimC4_amended_skip_and_fallback_witness :
    ([[5]] : List Color) ≠ [] ∧ ([5] : Color).length < 3 ∧
    ColorPalettes.findClosestColor 0 0 0 [[5]] = [5] ∧
    ColorPalettes.findClosestColor 1 2 3 ([] ++ ([5] : Color) :: [[0, 0, 0]])
      = ColorPalettes.findClosestColor 1 2 3 ([] ++ [[0, 0, 0]]) := by
  refine ⟨by decide, by decide, ?_, ?_⟩
  · exact claimC4_amended_skip_and_fallback.1 0 0 0 [[5]] (by decide) (by decide)
  · exact claimC4_amended_skip_and_fallback.2 1 2 3 [] [[0, 0, 0]] [5] (by decide) (by decide)

theorem claimC7_first_strict_argmin_witness :
    nearestColorSpec 90 250 250 ColorPalettes.cga = some [85, 255, 255] ∧
    ColorPalettes.findClosestColor 90 250 250 ColorPalettes.cga = [85, 255, 255] := by
  have hspec : nearestColorSpec 90 250 250 ColorPalettes.cga = some [85, 255, 255] := by
    norm_num [nearestColorSpec, nearestStep, distSq, ColorPalettes.cga]
  obtain ⟨col, h1, h2⟩ := claimC7_first_strict_argmin 90 250 250 ColorPalettes.cga (by decide)
  rw [hspec] at h1
  simp only [Option.some_inj] at h1
  subst h1
  exact ⟨hspec, h2⟩

theorem claimC9_alpha_passthrough_witness :
    ((⟨1, 1, [10, 20, 30, 255]⟩ : ImageData)).data.length = 1 * 1 * 4 ∧
    (⟨1, 1, [255, 0, 0, 255]⟩ : ImageData).data.getD (4 * 0 + 3) 0
      = (⟨1, 1, [10, 20, 30, 255]⟩ : ImageData).data.getD (4 * 0 + 3) 0 := by
  have h := claimC9_alpha_passthrough ⟨1, 1, [10, 20, 30, 255]⟩
    (fun _ _ _ => [300, 0, 0]) (by decide)
  exact ⟨by decide, h.1 _ fs1x1_run 0 (by decide)⟩

theorem claimC10_output_invariants_witness :
    ((⟨1, 1, [10, 20, 30, 255]⟩ : ImageData)).data.length = 1 * 1 * 4 ∧
    3 ≤ ([300, 0, 0] : Color).length ∧
    (Dithering.floydSteinberg ⟨1, 1, [10, 20, 30, 255]⟩ (fun _ _ _ => [300, 0, 0])).isSome
      = true ∧
    (Dithering.bayer ⟨1, 1, [10, 20, 30, 255]⟩ (fun _ _ _ => [300, 0, 0])).isSome = true ∧
    (Dithering.ordered ⟨1, 1, [10, 20, 30, 255]⟩ (fun _ _ _ => [300, 0, 0])).isSome = true := by
  obtain ⟨⟨o1, ho1, -⟩, ⟨o2, ho2, -⟩, ⟨o3, ho3, -⟩⟩ :=
    claimC10_output_invariants ⟨1, 1, [10, 20, 30, 255]⟩ (fun _ _ _ => [300, 0, 0])
      (by decide) (by decide) (fun _ _ _ => (by decide : 3 ≤ ([300, 0, 0] : Color).length))
  refine ⟨by decide, by decide, ?_, ?_, ?_⟩
  · rw [ho1]; rfl
  · rw [ho2]; rfl
  · rw [ho3]; rfl

theorem bayer2x1A_run :
    Dithering.bayer ⟨2, 1, [10, 20, 30, 255, 50, 60, 70, 255]⟩ (fun _ _ _ => [300, 0, 0])
      = some ⟨2, 1, [255, 0, 0, 255, 255, 0, 0, 255]⟩ := by
  norm_num [Dithering.bayer, Dithering.orderedCore, Dithering.ordPixel,
    show List.range 1 = [0] from by decide, show List.range 2 = [0, 1] from by decide,
    u8c_300, u8c_0]
  decide

theorem bayer2x1B_run :
    Dithering.bayer ⟨2, 1, [10, 20, 30, 255, 9, 9, 9, 9]⟩ (fun _ _ _ => [300, 0, 0])
      = some ⟨2, 1, [255, 0, 0, 255, 255, 0, 0, 9]⟩ := by
  norm_num [Dithering.bayer, Dithering.orderedCore, Dithering.ordPixel,
    show List.range 1 = [0] from by decide, show List.range 2 = [0, 1] from by decide,
    u8c_300, u8c_0]
  decide

theorem ordered2x1A_run :
    Dithering.ordered ⟨2, 1, [10, 20, 30, 255, 50, 60, 70, 255]⟩ (fun _ _ _ => [300, 0, 0])
      = some ⟨2, 1, [255, 0, 0, 255, 255, 0, 0, 255]⟩ := by
  norm_num [Dithering.ordered, Dithering.orderedCore, Dithering.ordPixel,
    show List.range 1 = [0] from by decide, show List.range 2 = [0, 1] from by decide,
    u8c_300, u8c_0]
  decide

theorem ordered2x1B_run :
    Dithering.ordered ⟨2, 1, [10, 20, 30, 255, 9, 9, 9, 9]⟩ (fun _ _ _ => [300, 0, 0])
      = some ⟨2, 1, [255, 0, 0, 255, 255, 0, 0, 9]⟩ := by
  norm_num [Dithering.ordered, Dithering.orderedCore, Dithering.ordPixel,
    show List.range 1 = [0] from by decide, show List.range 2 = [0, 1] from by decide,
    u8c_300, u8c_0]
  decide

theorem claimC6_ordered_pixel_locality_witness :
    (⟨2, 1, [10, 20, 30, 255, 50, 60, 70, 255]⟩ : ImageData).data.getD 0 0
      = (⟨2, 1, [10, 20, 30, 255, 9, 9, 9, 9]⟩ : ImageData).data.getD 0 0 ∧
    (⟨2, 1, [255, 0, 0, 255, 255, 0, 0, 255]⟩ : ImageData).data.getD ((0 * 2 + 0) * 4 + 0) 0
      = (⟨2, 1, [255, 0, 0, 255, 255, 0, 0, 9]⟩ : ImageData).data.getD ((0 * 2 + 0) * 4 + 0) 0 ∧
    (⟨2, 1, [255, 0, 0, 255, 255, 0, 0, 255]⟩ : ImageData).data.getD ((0 * 2 + 0) * 4 + 3) 0
      = (⟨2, 1, [255, 0, 0, 255, 255, 0, 0, 9]⟩ : ImageData).data.getD ((0 * 2 + 0) * 4 + 3) 0 := by
  obtain ⟨hbay, hord⟩ := claimC6_ordered_pixel_locality
    ⟨2, 1, [10, 20, 30, 255, 50, 60, 70, 255]⟩ ⟨2, 1, [10, 20, 30, 255, 9, 9, 9, 9]⟩
    (fun _ _ _ => [300, 0, 0]) 0 0 rfl rfl (by decide) (by decide) (by decide) (by decide)
    (by decide)
  exact ⟨by decide,
    hbay _ _ bayer2x1A_run bayer2x1B_run 0 (by decide),
    hord _ _ ordered2x1A_run ordered2x1B_run 3 (by decide)⟩

theorem claimC5_ordered_formula_witness :
    ((⟨1, 1, [10, 20, 30, 255]⟩ : ImageData)).data.length = 1 * 1 * 4 ∧
    (⟨1, 1, [255, 0, 0, 255]⟩ : ImageData).data.getD ((0 * 1 + 0) * 4 + 0) 0
      = toUint8Clamp (([300, 0, 0] : Color).getD 0 0) ∧
    (⟨1, 1, [255, 0, 0, 255]⟩ : ImageData).data.getD ((0 * 1 + 0) * 4 + 1) 0
      = toUint8Clamp (([300, 0, 0] : Color).getD 1 0) := by
  refine ⟨by decide, ?_, ?_⟩
  · exact claimC5_ordered_formula.2.2.1 ⟨1, 1, [10, 20, 30, 255]⟩ (fun _ _ _ => [300, 0, 0])
      ⟨1, 1, [255, 0, 0, 255]⟩ 0 0 (by decide) bayer1x1_run (by decide) (by decide) 0 (by decide)
  · exact claimC5_ordered_formula.2.2.2 ⟨1, 1, [10, 20, 30, 255]⟩ (fun _ _ _ => [300, 0, 0])
      ⟨1, 1, [255, 0, 0, 255]⟩ 0 0 (by decide) ordered1x1_run (by decide) (by decide) 1 (by decide)
